import Mathlib

/-!
Verification of the breamer-zero CDP proxy server core.

This file gives a shallow embedding of the core of `src/index.ts`:

* the WebSocket relay (the `clientWs` / `chromeWs` handlers installed in
  `wss.handleUpgrade`), as an event-driven state machine (`Relay`);
* the browser supervisor (`ensureBrowser`), as an interleaving machine with a
  suspension point at `await puppeteer.launch` (`Supervisor`);
* the page lifetime monitor (`schedulePageTimeout`, `clearPageTimeout`, the
  `targetcreated` / page `close` handlers, the timeout callback, `shutdown`),
  as a timed state machine (`Monitor`);
* the `/cdp` endpoint rewrite (`new URL(endpoint).pathname` and the
  ``wss://${TUNNEL_HOSTNAME}${path}`` template) and handler (`Cdp`);
* the fixed `puppeteer.launch` argument list (`launchArgs`).

Theorems about the embedded definitions follow the definitions.
-/

namespace Relay

/-- WebSocket `readyState` as in the `ws` library: CONNECTING, OPEN, CLOSING,
CLOSED.  (`opened` models readyState `WebSocket.OPEN`.) -/
inductive ConnState
  | connecting
  | opened
  | closing
  | closed
  deriving DecidableEq

/-- one WebSocket frame: its binary/text type and its payload bytes. -/
structure Frame where
  binary : Bool
  payload : List Nat
  deriving DecidableEq

/-- effect of calling `ws.close()` on a socket: a CLOSED socket stays CLOSED,
any other socket moves to CLOSING.  The close handshake completing is a later,
separate transport event. -/
def wsClose : ConnState → ConnState
  | .closed => .closed
  | _ => .closing

/-- effect of `ws.send(data)` with no options on a received frame: the
handlers receive `data` as a Node Buffer and ignore ws's `isBinary` flag, and
`send` is called without a `{ binary }` option, so the payload bytes go out
unchanged but the frame is always sent as a binary frame (ws v8 sends Buffer
data as binary by default) — the received frame's text/binary type is
dropped. -/
def sendRaw (f : Frame) : Frame :=
  ⟨true, f.payload⟩

/-- state of one bridged session (one `wss.handleUpgrade` callback run):
the two transports, the `clientClosed` / `chromeClosed` flags from the source,
the frames written to each side, and every `close` call made by the relay
together with the arguments it passed (`none` = `close()` with no arguments,
which is what the source always does). -/
structure RelayState where
  clientState : ConnState
  chromeState : ConnState
  clientClosed : Bool
  chromeClosed : Bool
  toChrome : List Frame
  toClient : List Frame
  chromeCloseCalls : List (Option (Nat × List Nat))
  clientCloseCalls : List (Option (Nat × List Nat))
  deriving DecidableEq

/-- transport events delivered to the relay's handlers: the upstream socket
completing its handshake, a message on either leg, a close (with code and
reason) on either leg, an error on either leg. -/
inductive Ev
  | chromeOpen
  | clientMsg (f : Frame)
  | chromeMsg (f : Frame)
  | clientClose (code : Nat) (reason : List Nat)
  | chromeClose (code : Nat) (reason : List Nat)
  | clientError
  | chromeError
  deriving DecidableEq

/-- one handler invocation, mirroring the handlers installed in
`wss.handleUpgrade` (src/index.ts:396-450).  A message is forwarded only when
the peer's `readyState` is OPEN, and is forwarded via `send(data)` with no
options, so it goes out as `sendRaw` of the received frame (payload intact,
type forced to binary); close handlers set the closed flag, then close the
peer (with no arguments) if the peer is not yet closed and OPEN; error
handlers close the peer (with no arguments) if the peer's closed flag is not
set. -/
def step (s : RelayState) : Ev → RelayState
  | .chromeOpen => { s with chromeState := .opened }
  | .clientMsg f =>
      if s.chromeState = .opened then { s with toChrome := s.toChrome ++ [sendRaw f] }
      else s
  | .chromeMsg f =>
      if s.clientState = .opened then { s with toClient := s.toClient ++ [sendRaw f] }
      else s
  | .clientClose _ _ =>
      let s1 := { s with clientState := ConnState.closed, clientClosed := true }
      if s1.chromeClosed = false ∧ s1.chromeState = .opened then
        { s1 with chromeState := wsClose s1.chromeState,
                  chromeCloseCalls := s1.chromeCloseCalls ++ [none] }
      else s1
  | .chromeClose _ _ =>
      let s1 := { s with chromeState := ConnState.closed, chromeClosed := true }
      if s1.clientClosed = false ∧ s1.clientState = .opened then
        { s1 with clientState := wsClose s1.clientState,
                  clientCloseCalls := s1.clientCloseCalls ++ [none] }
      else s1
  | .clientError =>
      if s.chromeClosed = false then
        { s with chromeState := wsClose s.chromeState,
                 chromeCloseCalls := s.chromeCloseCalls ++ [none] }
      else s
  | .chromeError =>
      if s.clientClosed = false then
        { s with clientState := wsClose s.clientState,
                 clientCloseCalls := s.clientCloseCalls ++ [none] }
      else s

/-- state right after `wss.handleUpgrade` hands over `clientWs` and
`new WebSocket(chromeUrl)` is created: the client handshake is complete, the
upstream connection is still being established. -/
def init : RelayState :=
  { clientState := .opened, chromeState := .connecting,
    clientClosed := false, chromeClosed := false,
    toChrome := [], toClient := [],
    chromeCloseCalls := [], clientCloseCalls := [] }

/-- run the relay over a sequence of transport events. -/
def run (s : RelayState) (es : List Ev) : RelayState :=
  es.foldl step s

/-- the frames carried by the client-side message events of a trace, in
order. -/
def clientFrames : List Ev → List Frame
  | [] => []
  | .clientMsg f :: es => f :: clientFrames es
  | _ :: es => clientFrames es

/-- the frames carried by the upstream-side message events of a trace, in
order. -/
def chromeFrames : List Ev → List Frame
  | [] => []
  | .chromeMsg f :: es => f :: chromeFrames es
  | _ :: es => chromeFrames es

/-- a trace made only of message deliveries (no close, no error, no open). -/
def msgOnly (es : List Ev) : Bool :=
  es.all fun e =>
    match e with
    | .clientMsg _ => true
    | .chromeMsg _ => true
    | _ => false

end Relay

namespace Cdp

/-- drop characters up to and including the `://` scheme separator
(the authority-and-path remainder of an absolute URL). -/
def afterSchemeMarker : List Char → List Char
  | ':' :: '/' :: '/' :: rest => rest
  | _ :: cs => afterSchemeMarker cs
  | [] => []

/-- drop characters up to the first `/` (the end of the authority), keeping
the `/` itself: the start of the path. -/
def dropThroughSlash : List Char → List Char
  | [] => []
  | c :: cs => if c = '/' then c :: cs else dropThroughSlash cs

/-- keep characters up to the first `?` or `#`: the path component proper. -/
def takeUntilQueryOrHash (cs : List Char) : List Char :=
  cs.takeWhile fun c => c ≠ '?' ∧ c ≠ '#'

/-- `new URL(s).pathname` on well-formed absolute URLs of the shape
`scheme://host[:port]/path[?query]`: everything from the `/` ending the
authority up to the first `?` or `#`. -/
def urlPathname (s : String) : String :=
  ⟨takeUntilQueryOrHash (dropThroughSlash (afterSchemeMarker s.data))⟩

/-- the query part of such a URL (without the leading `?`), used to state
what happens to query strings; empty when there is none. -/
def queryPart (s : String) : String :=
  ⟨((dropThroughSlash (afterSchemeMarker s.data)).dropWhile
      fun c => c ≠ '?').drop 1⟩

/-- the `/cdp` handler's `path` value: `new URL(localEndpoint).pathname`
(src/index.ts:264). -/
def cdpPath (localEndpoint : String) : String :=
  urlPathname localEndpoint

/-- the `/cdp` handler's rewritten endpoint:
``wss://${env.TUNNEL_HOSTNAME}${path}`` (src/index.ts:267). -/
def tunnelEndpoint (host localEndpoint : String) : String :=
  "wss://" ++ host ++ cdpPath localEndpoint

/-- a structured locally-bound control endpoint URL, as produced by the
browser: `ws://host[:port]/path[?query]`. -/
structure WsUrl where
  host : String
  path : String
  query : String
  deriving DecidableEq

/-- render the structured URL back to its string form. -/
def render (u : WsUrl) : String :=
  "ws://" ++ u.host ++ u.path ++ (if u.query = "" then "" else "?" ++ u.query)

/-- well-formedness of a locally-bound control endpoint: a nonempty host with
no path/query/fragment delimiters, and a path that starts with `/` and
contains no query/fragment delimiters. -/
def Valid (u : WsUrl) : Prop :=
  u.host ≠ "" ∧
  (∀ c ∈ u.host.data, c ≠ '/' ∧ c ≠ '?' ∧ c ≠ '#') ∧
  u.path.data.head? = some '/' ∧
  (∀ c ∈ u.path.data, c ≠ '?' ∧ c ≠ '#')

instance (u : WsUrl) : Decidable (Valid u) := by
  unfold Valid; infer_instance

/-- result of the `/cdp` HTTP handler: either the 200 JSON body
`{ wsEndpoint, path }` or the 500 JSON body `{ error, message }`. -/
inductive CdpResponse
  | ok (status : Nat) (wsEndpoint : String) (path : String)
  | err (status : Nat) (error : String) (message : String)
  deriving DecidableEq

/-- supervisor-side state seen by the `/cdp` handler: the current browser
handle (carrying its local `wsEndpoint`) and how many launches were
attempted. -/
structure CdpState where
  browser : Option String
  attempts : Nat
  deriving DecidableEq

/-- the `app.get("/cdp")` handler (src/index.ts:260-285): `ensureBrowser`
returns the existing connected browser or attempts a single launch (whose
outcome is `launchResult`); on success the response carries the rewritten
endpoint and the opaque path, on failure the `catch` branch answers 500 with
an error message, without crashing and without retrying the launch. -/
def cdpHandler (host : String) (s : CdpState) (launchResult : Except String String) :
    CdpState × CdpResponse :=
  match s.browser with
  | some ep => (s, .ok 200 (tunnelEndpoint host ep) (cdpPath ep))
  | none =>
    match launchResult with
    | .ok ep =>
        ({ browser := some ep, attempts := s.attempts + 1 },
         .ok 200 (tunnelEndpoint host ep) (cdpPath ep))
    | .error msg =>
        ({ s with attempts := s.attempts + 1 },
         .err 500 "Failed to get browser endpoint" msg)

end Cdp

namespace Supervisor

/-- phase of one `ensureBrowser()` call: before its connectivity check, about
to run atomically up to `await puppeteer.launch`; suspended inside that await;
or returned with a browser handle. -/
inductive Phase
  | idle
  | launching
  | done (h : Nat)
  deriving DecidableEq

/-- global supervisor state: the module-level `browser` variable (a handle id
when set), the launched-and-never-closed browser processes, the number of
launches performed, a fresh handle counter, and the phase of each
`ensureBrowser` call in flight. -/
structure SupState where
  browser : Option Nat
  live : List Nat
  launches : Nat
  nextId : Nat
  tasks : List Phase
  deriving DecidableEq

/-- advance call `i` by one atomic segment of `ensureBrowser`
(src/index.ts:174-218).  An idle call runs the `browser && browser.connected`
check: if the handle is set it returns it at once, otherwise it enters
`await puppeteer.launch` and suspends.  A suspended call resumes when its
launch completes: a fresh process is now live, the handle variable is
overwritten with the fresh handle, and the call returns it. -/
def taskStep (s : SupState) (i : Nat) : SupState :=
  if i < s.tasks.length then
    match s.tasks.getD i Phase.idle with
    | Phase.idle =>
        match s.browser with
        | some h => { s with tasks := s.tasks.set i (Phase.done h) }
        | none => { s with tasks := s.tasks.set i Phase.launching }
    | Phase.launching =>
        { s with browser := some s.nextId, live := s.live ++ [s.nextId],
                 launches := s.launches + 1, nextId := s.nextId + 1,
                 tasks := s.tasks.set i (Phase.done s.nextId) }
    | Phase.done _ => s
  else s

/-- initial state with `n` pending `ensureBrowser` calls and no browser. -/
def sinit (n : Nat) : SupState :=
  { browser := none, live := [], launches := 0, nextId := 0,
    tasks := List.replicate n Phase.idle }

/-- run a schedule: a list of call indices, each advanced one segment. -/
def runSched (s : SupState) (sched : List Nat) : SupState :=
  sched.foldl taskStep s

/-- every state the event loop passes through while running a schedule. -/
def statesAlong (s : SupState) : List Nat → List SupState
  | [] => [s]
  | i :: rest => s :: statesAlong (taskStep s i) rest

/-- the fully sequential schedule: call `0` runs to completion, then call `1`,
and so on — no call overlaps another at the suspension point. -/
def seqSched : Nat → List Nat
  | 0 => []
  | n + 1 => seqSched n ++ [n, n]

/-- task list after the first `k` of `n` sequential calls finished: the first
`k` returned handle `0`, the rest have not started. -/
def stableTasks (n k : Nat) : List Phase :=
  List.replicate k (Phase.done 0) ++ List.replicate (n - k) Phase.idle

/-- supervisor state after the first `k ≥ 1` of `n` sequential calls
finished: one launch, one live process, handle `0` installed. -/
def stableState (n k : Nat) : SupState :=
  { browser := some 0, live := [0], launches := 1, nextId := 1,
    tasks := stableTasks n k }

end Supervisor

namespace Monitor

/-- one pending `setTimeout` timer: its handle, the page it belongs to, and
the absolute time at which it fires. -/
structure Timer where
  id : Nat
  page : Nat
  fireAt : Nat
  deriving DecidableEq

/-- page lifetime monitor state: current time, a fresh-timer counter, the
runtime's pending timers, the `pageTimeouts` map (page id to timer handle),
each page's creation time, the closed pages, the external close events seen
(page, time), the close requests issued by the monitor (page, time), and the
browser handle flag (for `shutdown`). -/
structure MState where
  now : Nat
  nextTimerId : Nat
  pending : List Timer
  pageTimeouts : List (Nat × Nat)
  createdAt : List (Nat × Nat)
  closedPages : List Nat
  externalCloses : List (Nat × Nat)
  closeRequests : List (Nat × Nat)
  browser : Bool
  deriving DecidableEq

/-- `Map.get`: the value of the first binding of the key, if any. -/
def mget : List (Nat × Nat) → Nat → Option Nat
  | [], _ => none
  | (k, v) :: m, p => if k = p then some v else mget m p

/-- `Map.delete`: remove all bindings of the key. -/
def mdel : List (Nat × Nat) → Nat → List (Nat × Nat)
  | [], _ => []
  | (k, v) :: m, p => if k = p then mdel m p else (k, v) :: mdel m p

/-- `Map.set`: bind the key to the value, replacing any existing binding. -/
def mset (m : List (Nat × Nat)) (p v : Nat) : List (Nat × Nat) :=
  mdel m p ++ [(p, v)]

/-- `schedulePageTimeout` (src/index.ts:29-55): clear any existing timeout
for the page, install a fresh `setTimeout` firing `T` from now, and record it
in `pageTimeouts`. -/
def schedulePageTimeout (T p : Nat) (s : MState) : MState :=
  let s1 :=
    match mget s.pageTimeouts p with
    | some tid => { s with pending := s.pending.filter fun t => t.id ≠ tid }
    | none => s
  { s1 with pending := s1.pending ++ [⟨s1.nextTimerId, p, s1.now + T⟩],
            pageTimeouts := mset s1.pageTimeouts p s1.nextTimerId,
            nextTimerId := s1.nextTimerId + 1 }

/-- `clearPageTimeout` (src/index.ts:57-63): cancel the page's tracked timer
and drop its map entry, if it has one. -/
def clearPageTimeout (p : Nat) (s : MState) : MState :=
  match mget s.pageTimeouts p with
  | some tid =>
      { s with pending := s.pending.filter fun t => t.id ≠ tid,
               pageTimeouts := mdel s.pageTimeouts p }
  | none => s

/-- a timer firing: the runtime removes it from the pending set and runs the
timeout callback (src/index.ts:36-52): if the page is already closed, only
`pageTimeouts.delete(page)` runs; otherwise the monitor requests the page's
close, the page closes (running the page `close` handler, which is
`clearPageTimeout`), and then `pageTimeouts.delete(page)` runs. -/
def fireTimer (t : Timer) (s : MState) : MState :=
  let s1 := { s with pending := s.pending.filter fun u => u.id ≠ t.id }
  if t.page ∈ s1.closedPages then
    { s1 with pageTimeouts := mdel s1.pageTimeouts t.page }
  else
    let s2 := { s1 with closeRequests := s1.closeRequests ++ [(t.page, s1.now)],
                        closedPages := s1.closedPages ++ [t.page] }
    let s3 := clearPageTimeout t.page s2
    { s3 with pageTimeouts := mdel s3.pageTimeouts t.page }

/-- fire every timer that is due at the current time, in order. -/
def fireDue (s : MState) : MState :=
  (s.pending.filter fun t => t.fireAt ≤ s.now).foldl (fun a t => fireTimer t a) s

/-- monitor events: the browser reports a new page target, a page closes for
an external reason (client action or crash), or one millisecond of time
passes (firing any due timers). -/
inductive MEv
  | create (p : Nat)
  | closeExternal (p : Nat)
  | tick
  deriving DecidableEq

/-- one monitor event, mirroring the `targetcreated` handler installing
`schedulePageTimeout` plus the page `close` handler (src/index.ts:87-102):
a page id is created at most once (ids are browser-assigned and stable), and
an external close of an open tracked page cancels its timeout. -/
def mstep (T : Nat) (s : MState) : MEv → MState
  | .create p =>
      if (mget s.createdAt p).isSome then s
      else schedulePageTimeout T p { s with createdAt := s.createdAt ++ [(p, s.now)] }
  | .closeExternal p =>
      if (mget s.createdAt p).isSome ∧ p ∉ s.closedPages then
        clearPageTimeout p { s with closedPages := s.closedPages ++ [p],
                                    externalCloses := s.externalCloses ++ [(p, s.now)] }
      else s
  | .tick => fireDue { s with now := s.now + 1 }

/-- initial monitor state: no pages, no timers, browser launched at startup. -/
def minit : MState :=
  { now := 0, nextTimerId := 0, pending := [], pageTimeouts := [],
    createdAt := [], closedPages := [], externalCloses := [],
    closeRequests := [], browser := true }

/-- run the monitor over a sequence of events. -/
def mrun (T : Nat) (s : MState) (es : List MEv) : MState :=
  es.foldl (mstep T) s

/-- the first half of `shutdown` (src/index.ts:292-296): cancel every timer
tracked in `pageTimeouts`, then clear the map. -/
def shutdownTimers (s : MState) : MState :=
  { s with pending := s.pending.filter fun t => !((s.pageTimeouts.map Prod.snd).contains t.id),
           pageTimeouts := [] }

/-- `shutdown` (src/index.ts:288-306): cancel and clear all page timers
first, and only then close the browser and release the handle if one is
running. -/
def shutdown (s : MState) : MState :=
  let s1 := shutdownTimers s
  if s1.browser then { s1 with browser := false } else s1

/-- inductive invariant of the page lifetime monitor, tying the pending
timers to the `pageTimeouts` map and the page bookkeeping: pending timers
and map entries are in bijection, timer handles are fresh and distinct,
timers fire in the future, each timer belongs to an open created page and
fires at its creation time plus the configured age, close requests are
issued exactly at that age for pages then closed, closed pages are
accounted for, open created pages always have their timer, and a page
closed externally before its age never receives a monitor close request. -/
structure MInvBase (T : Nat) (s : MState) : Prop where
  tracked : ∀ t ∈ s.pending, mget s.pageTimeouts t.page = some t.id
  trackedBack : ∀ p tid, mget s.pageTimeouts p = some tid →
    ∃ t, t ∈ s.pending ∧ t.id = tid ∧ t.page = p
  idNodup : (s.pending.map Timer.id).Nodup
  idBound : ∀ t ∈ s.pending, t.id < s.nextTimerId
  futureWeak : ∀ t ∈ s.pending, s.now ≤ t.fireAt
  timerMeta : ∀ t ∈ s.pending, ∃ c, mget s.createdAt t.page = some c ∧
    t.fireAt = c + T ∧ t.page ∉ s.closedPages
  reqChar : ∀ p q, (p, q) ∈ s.closeRequests →
    ∃ c, mget s.createdAt p = some c ∧ q = c + T ∧ p ∈ s.closedPages
  extChar : ∀ p q, (p, q) ∈ s.externalCloses → q ≤ s.now ∧ p ∈ s.closedPages
  closedChar : ∀ p ∈ s.closedPages,
    (∃ q, (p, q) ∈ s.externalCloses) ∨ (∃ q, (p, q) ∈ s.closeRequests)
  closedCreated : ∀ p ∈ s.closedPages, ∃ c, mget s.createdAt p = some c
  openTimer : ∀ p c, mget s.createdAt p = some c → p ∉ s.closedPages →
    ∃ t, t ∈ s.pending ∧ t.page = p ∧ t.fireAt = c + T
  noReapExt : ∀ p q c, (p, q) ∈ s.externalCloses → mget s.createdAt p = some c →
    q < c + T → ∀ q2, (p, q2) ∉ s.closeRequests

/-- full monitor invariant: the base invariant, strict timer futurity, and
the reaping guarantee (a created page past its age has either received the
monitor's close request at exactly creation + age, or was closed externally
before that age). -/
def MInv (T : Nat) (s : MState) : Prop :=
  MInvBase T s ∧ (∀ t ∈ s.pending, s.now < t.fireAt) ∧
  (∀ p c, mget s.createdAt p = some c → c + T ≤ s.now →
    (p, c + T) ∈ s.closeRequests ∨ ∃ q, (p, q) ∈ s.externalCloses ∧ q < c + T)

end Monitor

/-- the fixed `puppeteer.launch` argument list (src/index.ts:183-194), as a
function of the configured debug port. -/
def launchArgs (debugPort : Nat) : List String :=
  [ "--remote-debugging-port=" ++ toString debugPort,
    "--no-first-run",
    "--no-default-browser-check",
    "--disable-default-apps",
    "--disable-popup-blocking",
    "--disable-extensions",
    "--disable-sync",
    "--disable-background-networking",
    "--remote-debugging-address=0.0.0.0" ]

/-- whether the first list is an initial segment of the second (an observer
used to state facts about launch arguments). -/
def leadsChars : List Char → List Char → Bool
  | [], _ => true
  | _ :: _, [] => false
  | c :: cs, d :: ds => c == d && leadsChars cs ds

/-- whether the first list occurs contiguously anywhere inside the second. -/
def hasSub (needle : List Char) : List Char → Bool
  | [] => needle.isEmpty
  | c :: cs => leadsChars needle (c :: cs) || hasSub needle cs

/-- whether any launch argument mentions the given word. -/
def argsMention (word : String) (args : List String) : Bool :=
  args.any fun a => hasSub word.data a.data

namespace Relay

theorem run_nil (s : RelayState) : run s [] = s := rfl

theorem run_cons (s : RelayState) (e : Ev) (es : List Ev) :
    run s (e :: es) = run (step s e) es := rfl

theorem run_append (s : RelayState) (es1 es2 : List Ev) :
    run s (es1 ++ es2) = run (run s es1) es2 := by
  simp [run, List.foldl_append]

theorem step_toChrome (s : RelayState) (e : Ev) :
    (step s e).toChrome = s.toChrome ∨
      ∃ f, e = Ev.clientMsg f ∧ s.chromeState = ConnState.opened ∧
        (step s e).toChrome = s.toChrome ++ [sendRaw f] := by
  cases e <;> simp only [step] <;> first
    | (split <;> simp_all)
    | simp

theorem step_toClient (s : RelayState) (e : Ev) :
    (step s e).toClient = s.toClient ∨
      ∃ f, e = Ev.chromeMsg f ∧ s.clientState = ConnState.opened ∧
        (step s e).toClient = s.toClient ++ [sendRaw f] := by
  cases e <;> simp only [step] <;> first
    | (split <;> simp_all)
    | simp

theorem run_toChrome_sublist (es : List Ev) : ∀ s : RelayState,
    ∃ d, (run s es).toChrome = s.toChrome ++ d ∧
      List.Sublist d ((clientFrames es).map sendRaw) := by
  induction es with
  | nil => exact fun s => ⟨[], by simp [run], List.Sublist.refl _⟩
  | cons e es ih =>
    intro s
    obtain ⟨d, hd, hsub⟩ := ih (step s e)
    rcases step_toChrome s e with h | ⟨f, rfl, _, h⟩
    · refine ⟨d, by rw [run_cons, hd, h], ?_⟩
      cases e <;> first
        | exact hsub
        | exact (by simpa [clientFrames] using hsub.cons _)
    · exact ⟨sendRaw f :: d, by rw [run_cons, hd, h]; simp,
        by simpa [clientFrames] using hsub.cons₂ (sendRaw f)⟩

theorem run_toClient_sublist (es : List Ev) : ∀ s : RelayState,
    ∃ d, (run s es).toClient = s.toClient ++ d ∧
      List.Sublist d ((chromeFrames es).map sendRaw) := by
  induction es with
  | nil => exact fun s => ⟨[], by simp [run], List.Sublist.refl _⟩
  | cons e es ih =>
    intro s
    obtain ⟨d, hd, hsub⟩ := ih (step s e)
    rcases step_toClient s e with h | ⟨f, rfl, _, h⟩
    · refine ⟨d, by rw [run_cons, hd, h], ?_⟩
      cases e <;> first
        | exact hsub
        | exact (by simpa [chromeFrames] using hsub.cons _)
    · exact ⟨sendRaw f :: d, by rw [run_cons, hd, h]; simp,
        by simpa [chromeFrames] using hsub.cons₂ (sendRaw f)⟩

theorem run_msgOnly (es : List Ev) : ∀ s : RelayState, msgOnly es = true →
    s.clientState = ConnState.opened → s.chromeState = ConnState.opened →
    (run s es).toChrome = s.toChrome ++ (clientFrames es).map sendRaw ∧
    (run s es).toClient = s.toClient ++ (chromeFrames es).map sendRaw := by
  induction es with
  | nil => intro s _ _ _; simp [run, clientFrames, chromeFrames]
  | cons e es ih =>
    intro s hmsg hcl hch
    have hmsg2 : msgOnly es = true := by
      simp only [msgOnly, List.all_cons, Bool.and_eq_true] at hmsg
      exact hmsg.2
    cases e with
    | clientMsg f =>
      have hstep : step s (Ev.clientMsg f)
          = { s with toChrome := s.toChrome ++ [sendRaw f] } := by
        simp [step, hch]
      rw [run_cons, hstep]
      obtain ⟨h1, h2⟩ := ih { s with toChrome := s.toChrome ++ [sendRaw f] } hmsg2 hcl hch
      refine ⟨?_, ?_⟩ <;> simp [h1, h2, clientFrames, chromeFrames]
    | chromeMsg f =>
      have hstep : step s (Ev.chromeMsg f)
          = { s with toClient := s.toClient ++ [sendRaw f] } := by
        simp [step, hcl]
      rw [run_cons, hstep]
      obtain ⟨h1, h2⟩ := ih { s with toClient := s.toClient ++ [sendRaw f] } hmsg2 hcl hch
      refine ⟨?_, ?_⟩ <;> simp [h1, h2, clientFrames, chromeFrames]
    | chromeOpen => simp [msgOnly] at hmsg
    | clientClose code reason => simp [msgOnly] at hmsg
    | chromeClose code reason => simp [msgOnly] at hmsg
    | clientError => simp [msgOnly] at hmsg
    | chromeError => simp [msgOnly] at hmsg

end Relay

/-- Claim C2 (amended): for every event trace of a RelayConnection, the frame
sequence observed on each side is an order-preserving subsequence of the
image under `sendRaw` of the sequence sent into the other side: payload
bytes are never mutated, frames are never reordered or duplicated, and for
message-only traffic after the upstream handshake completes every frame's
payload is forwarded in order, in both directions.  The binary/text frame
type, however, is NOT preserved: the handlers ignore ws's `isBinary` flag
and call `send(data)` on a Buffer with no options, so every forwarded frame
— including a received text frame — is re-sent as a binary frame.  As
stated, the claim also fails for frames that arrive while the upstream
transport is not yet OPEN, which are dropped. -/
theorem breamer_C2 (es : List Relay.Ev) :
    (List.Sublist (Relay.run Relay.init es).toChrome
        ((Relay.clientFrames es).map Relay.sendRaw) ∧
     List.Sublist (Relay.run Relay.init es).toClient
        ((Relay.chromeFrames es).map Relay.sendRaw)) ∧
    ((∀ f ∈ (Relay.run Relay.init es).toChrome, f.binary = true) ∧
     (∀ f ∈ (Relay.run Relay.init es).toClient, f.binary = true)) ∧
    (Relay.msgOnly es = true →
      (Relay.run Relay.init (Relay.Ev.chromeOpen :: es)).toChrome
        = (Relay.clientFrames es).map Relay.sendRaw ∧
      (Relay.run Relay.init (Relay.Ev.chromeOpen :: es)).toClient
        = (Relay.chromeFrames es).map Relay.sendRaw) := by
  obtain ⟨d1, hd1, hsub1⟩ := Relay.run_toChrome_sublist es Relay.init
  obtain ⟨d2, hd2, hsub2⟩ := Relay.run_toClient_sublist es Relay.init
  have hch : (Relay.run Relay.init es).toChrome = d1 := by
    rw [hd1]; simp [Relay.init]
  have hcl : (Relay.run Relay.init es).toClient = d2 := by
    rw [hd2]; simp [Relay.init]
  refine ⟨⟨?_, ?_⟩, ⟨?_, ?_⟩, ?_⟩
  · rw [hch]; exact hsub1
  · rw [hcl]; exact hsub2
  · intro f hf
    rw [hch] at hf
    obtain ⟨g, -, rfl⟩ := List.mem_map.mp (hsub1.subset hf)
    rfl
  · intro f hf
    rw [hcl] at hf
    obtain ⟨g, -, rfl⟩ := List.mem_map.mp (hsub2.subset hf)
    rfl
  · intro hmsg
    have hstep : Relay.step Relay.init Relay.Ev.chromeOpen
        = { Relay.init with chromeState := Relay.ConnState.opened } := rfl
    rw [Relay.run_cons, hstep]
    simpa using Relay.run_msgOnly es _ hmsg rfl rfl

/-- Claim C2 witness: a concrete message-only trace is forwarded
payload-for-payload in order, each frame coerced to binary by the
argument-free `send`. -/
theorem breamer_C2_witness :
    Relay.msgOnly [Relay.Ev.clientMsg ⟨false, [7]⟩, Relay.Ev.chromeMsg ⟨true, [8]⟩] = true ∧
    ((Relay.run Relay.init (Relay.Ev.chromeOpen ::
        [Relay.Ev.clientMsg ⟨false, [7]⟩, Relay.Ev.chromeMsg ⟨true, [8]⟩])).toChrome
      = (Relay.clientFrames [Relay.Ev.clientMsg ⟨false, [7]⟩,
          Relay.Ev.chromeMsg ⟨true, [8]⟩]).map Relay.sendRaw ∧
     (Relay.run Relay.init (Relay.Ev.chromeOpen ::
        [Relay.Ev.clientMsg ⟨false, [7]⟩, Relay.Ev.chromeMsg ⟨true, [8]⟩])).toClient
      = (Relay.chromeFrames [Relay.Ev.clientMsg ⟨false, [7]⟩,
          Relay.Ev.chromeMsg ⟨true, [8]⟩]).map Relay.sendRaw) :=
  ⟨by decide,
   (breamer_C2 [Relay.Ev.clientMsg ⟨false, [7]⟩,
      Relay.Ev.chromeMsg ⟨true, [8]⟩]).2.2 (by decide)⟩

/-- Claim C2 counterexample: a text frame sent by the client after the
upstream handshake completes arrives upstream as a binary frame — the
binary/text type is not preserved — and a frame sent while the upstream
connection is still being established is not forwarded at all. -/
theorem breamer_C2_counterexample :
    (Relay.run Relay.init
        [Relay.Ev.chromeOpen, Relay.Ev.clientMsg ⟨false, [7]⟩]).toChrome
      = [⟨true, [7]⟩] ∧
    (⟨true, [7]⟩ : Relay.Frame) ≠ ⟨false, [7]⟩ ∧
    (Relay.run Relay.init [Relay.Ev.clientMsg ⟨false, [7]⟩]).toChrome = [] := by
  decide

/-- Claim C4 (amended): when either leg of a RelayConnection closes while the
other leg's flag shows it not yet closed and its transport is OPEN, the relay
closes the other leg immediately in the same handler run (a bounded window),
issuing exactly one close call; the call passes no arguments, so the received
close code and reason are not propagated. -/
theorem breamer_C4 (es : List Relay.Ev) (code : Nat) (reason : List Nat) :
    ((Relay.run Relay.init es).chromeClosed = false →
      (Relay.run Relay.init es).chromeState = Relay.ConnState.opened →
      (Relay.step (Relay.run Relay.init es) (Relay.Ev.clientClose code reason)).chromeState
          = Relay.ConnState.closing ∧
      (Relay.step (Relay.run Relay.init es) (Relay.Ev.clientClose code reason)).chromeCloseCalls
          = (Relay.run Relay.init es).chromeCloseCalls ++ [none]) ∧
    ((Relay.run Relay.init es).clientClosed = false →
      (Relay.run Relay.init es).clientState = Relay.ConnState.opened →
      (Relay.step (Relay.run Relay.init es) (Relay.Ev.chromeClose code reason)).clientState
          = Relay.ConnState.closing ∧
      (Relay.step (Relay.run Relay.init es) (Relay.Ev.chromeClose code reason)).clientCloseCalls
          = (Relay.run Relay.init es).clientCloseCalls ++ [none]) := by
  generalize Relay.run Relay.init es = s
  constructor
  · intro h1 h2
    constructor <;> simp [Relay.step, Relay.wsClose, h1, h2]
  · intro h1 h2
    constructor <;> simp [Relay.step, Relay.wsClose, h1, h2]

/-- Claim C4 witness: after the upstream handshake completes, a client close
makes the relay close the upstream leg at once, with an argument-free close
call. -/
theorem breamer_C4_witness :
    (Relay.run Relay.init [Relay.Ev.chromeOpen]).chromeClosed = false ∧
    (Relay.run Relay.init [Relay.Ev.chromeOpen]).chromeState = Relay.ConnState.opened ∧
    ((Relay.step (Relay.run Relay.init [Relay.Ev.chromeOpen])
        (Relay.Ev.clientClose 1006 [])).chromeState = Relay.ConnState.closing ∧
     (Relay.step (Relay.run Relay.init [Relay.Ev.chromeOpen])
        (Relay.Ev.clientClose 1006 [])).chromeCloseCalls
        = (Relay.run Relay.init [Relay.Ev.chromeOpen]).chromeCloseCalls ++ [none]) :=
  ⟨by decide, by decide, (breamer_C4 [Relay.Ev.chromeOpen] 1006 []).1 (by decide) (by decide)⟩

/-- Claim C4 counterexample: the client closes with code 4000 and reason
"bye", and the relay's close call on the upstream leg carries no arguments at
all, so the close code and reason are not propagated. -/
theorem breamer_C4_counterexample :
    (Relay.run Relay.init
        [Relay.Ev.chromeOpen, Relay.Ev.clientClose 4000 [98, 121, 101]]).chromeCloseCalls
      = [none] ∧
    (none : Option (Nat × List Nat)) ≠ some (4000, [98, 121, 101]) := by
  decide

/-- Claim C10: a frame that arrives on one leg while the other leg's
transport is not in the OPEN state is a complete no-op for the relay: the
whole relay state (delivered frames, buffers, transports, close calls) is as
if the frame had never arrived — it is not buffered, not delivered later, and
no error is raised on either side. -/
theorem breamer_C10 :
    (∀ (es1 es2 : List Relay.Ev) (f : Relay.Frame),
      (Relay.run Relay.init es1).chromeState ≠ Relay.ConnState.opened →
        Relay.run Relay.init (es1 ++ Relay.Ev.clientMsg f :: es2)
          = Relay.run Relay.init (es1 ++ es2)) ∧
    (∀ (es1 es2 : List Relay.Ev) (f : Relay.Frame),
      (Relay.run Relay.init es1).clientState ≠ Relay.ConnState.opened →
        Relay.run Relay.init (es1 ++ Relay.Ev.chromeMsg f :: es2)
          = Relay.run Relay.init (es1 ++ es2)) := by
  constructor <;> intro es1 es2 f h <;>
    rw [Relay.run_append, Relay.run_cons, Relay.run_append] <;>
    congr 1 <;> simp [Relay.step, h]

/-- Claim C10 witness: a client frame sent before the upstream handshake
completes leaves the relay in exactly the state it would have without the
frame. -/
theorem breamer_C10_witness :
    (Relay.run Relay.init []).chromeState ≠ Relay.ConnState.opened ∧
    Relay.run Relay.init ([] ++ Relay.Ev.clientMsg ⟨false, [9]⟩ :: [Relay.Ev.chromeOpen])
      = Relay.run Relay.init ([] ++ [Relay.Ev.chromeOpen]) :=
  ⟨by decide, breamer_C10.1 [] [Relay.Ev.chromeOpen] ⟨false, [9]⟩ (by decide)⟩

namespace Cdp

theorem dropThroughSlash_append (xs ys : List Char) (h : ∀ c ∈ xs, c ≠ '/') :
    dropThroughSlash (xs ++ ys) = dropThroughSlash ys := by
  induction xs with
  | nil => rfl
  | cons c cs ih =>
    simp only [List.cons_append, dropThroughSlash]
    rw [if_neg (h c (List.mem_cons_self c cs))]
    exact ih fun d hd => h d (List.mem_cons_of_mem c hd)

theorem takeWhileChars_append (p : Char → Bool) (xs ys : List Char)
    (h : ∀ c ∈ xs, p c = true) :
    (xs ++ ys).takeWhile p = xs ++ ys.takeWhile p := by
  induction xs with
  | nil => rfl
  | cons c cs ih =>
    simp only [List.cons_append, List.takeWhile]
    rw [h c (List.mem_cons_self c cs)]
    simp [ih fun d hd => h d (List.mem_cons_of_mem c hd)]

theorem takeWhileChars_all (p : Char → Bool) (xs : List Char)
    (h : ∀ c ∈ xs, p c = true) : xs.takeWhile p = xs := by
  have := takeWhileChars_append p xs [] h
  simpa using this

theorem takeWhileChars_stop (p : Char → Bool) (xs : List Char) (y : Char)
    (ys : List Char) (hall : ∀ c ∈ xs, p c = true) (hy : p y = false) :
    (xs ++ y :: ys).takeWhile p = xs := by
  rw [takeWhileChars_append p xs _ hall]
  simp [List.takeWhile, hy]

/-- on every valid locally-bound control endpoint, `new URL(s).pathname`
recovers the path component exactly, byte for byte. -/
theorem urlPathname_render (u : WsUrl) (h : Valid u) :
    urlPathname (render u) = u.path := by
  obtain ⟨-, hhost, hhead, hpc⟩ := h
  have hslash : ∀ c ∈ u.host.data, c ≠ '/' := fun c hc => (hhost c hc).1
  obtain ⟨c0, cs, hdata⟩ : ∃ c0 cs, u.path.data = c0 :: cs := by
    cases hd : u.path.data with
    | nil => rw [hd] at hhead; simp at hhead
    | cons c0 cs => exact ⟨c0, cs, rfl⟩
  have hc0 : c0 = '/' := by rw [hdata] at hhead; simpa using hhead
  subst hc0
  have hptrue : ∀ c ∈ u.path.data,
      (fun c => decide (c ≠ '?' ∧ c ≠ '#')) c = true := by
    intro c hc; simpa using hpc c hc
  by_cases hq0 : u.query = ""
  · have hr : render u = "ws://" ++ u.host ++ u.path ++ "" := by
      rw [render, hq0]; rfl
    have h1 : afterSchemeMarker ("ws://" ++ u.host ++ u.path ++ "").data
        = (u.host.data ++ u.path.data) ++ [] := rfl
    show String.mk (takeUntilQueryOrHash (dropThroughSlash
        (afterSchemeMarker (render u).data))) = u.path
    rw [hr, h1, List.append_nil, dropThroughSlash_append _ _ hslash, hdata]
    have h2 : dropThroughSlash ('/' :: cs) = '/' :: cs := by
      simp [dropThroughSlash]
    rw [h2, ← hdata]
    show String.mk (u.path.data.takeWhile _) = u.path
    rw [takeWhileChars_all _ _ hptrue]
  · have hr : render u = "ws://" ++ u.host ++ u.path ++ ("?" ++ u.query) := by
      rw [render, if_neg hq0]
    have h1 : afterSchemeMarker ("ws://" ++ u.host ++ u.path ++ ("?" ++ u.query)).data
        = (u.host.data ++ u.path.data) ++ ('?' :: u.query.data) := rfl
    show String.mk (takeUntilQueryOrHash (dropThroughSlash
        (afterSchemeMarker (render u).data))) = u.path
    rw [hr, h1, List.append_assoc, dropThroughSlash_append _ _ hslash, hdata]
    have h2 : dropThroughSlash (('/' :: cs) ++ '?' :: u.query.data)
        = ('/' :: cs) ++ '?' :: u.query.data := by
      simp [dropThroughSlash]
    rw [h2]
    unfold takeUntilQueryOrHash
    rw [takeWhileChars_stop _ ('/' :: cs) '?' u.query.data (hdata ▸ hptrue) (by decide)]
    rw [← hdata]

end Cdp

/-- Claim C3 (amended): for every valid locally-bound control endpoint URL,
the `GET /cdp` rewrite replaces the scheme and host and preserves the path
component exactly as produced by the browser (case included); any query
string on the input endpoint is dropped from the rewritten endpoint, not
preserved. -/
theorem breamer_C3 (u : Cdp.WsUrl) (host : String) (h : Cdp.Valid u) :
    Cdp.tunnelEndpoint host (Cdp.render u) = "wss://" ++ host ++ u.path ∧
    Cdp.cdpPath (Cdp.render u) = u.path := by
  have hp := Cdp.urlPathname_render u h
  exact ⟨by rw [Cdp.tunnelEndpoint, Cdp.cdpPath, hp], hp⟩

/-- Claim C3 witness: a concrete valid endpoint (with mixed case and an
opaque identifier) is rewritten with its path preserved exactly. -/
theorem breamer_C3_witness :
    Cdp.Valid ⟨"127.0.0.1:9222", "/devtools/browser/abc-DEF", ""⟩ ∧
    (Cdp.tunnelEndpoint "t.example"
        (Cdp.render ⟨"127.0.0.1:9222", "/devtools/browser/abc-DEF", ""⟩)
      = "wss://" ++ "t.example" ++ "/devtools/browser/abc-DEF" ∧
     Cdp.cdpPath (Cdp.render ⟨"127.0.0.1:9222", "/devtools/browser/abc-DEF", ""⟩)
      = "/devtools/browser/abc-DEF") :=
  ⟨by decide, breamer_C3 ⟨"127.0.0.1:9222", "/devtools/browser/abc-DEF", ""⟩
    "t.example" (by decide)⟩

/-- Claim C3 counterexample: a well-formed endpoint carrying a query string
has its query string dropped by the rewrite, not left unaltered: the input's
query is `q=1` and the rewritten endpoint's query is empty. -/
theorem breamer_C3_counterexample :
    Cdp.queryPart "ws://127.0.0.1:9222/devtools/browser/ab?q=1" = "q=1" ∧
    Cdp.tunnelEndpoint "t.example" "ws://127.0.0.1:9222/devtools/browser/ab?q=1"
      = "wss://t.example/devtools/browser/ab" ∧
    Cdp.queryPart (Cdp.tunnelEndpoint "t.example"
        "ws://127.0.0.1:9222/devtools/browser/ab?q=1") = "" := by
  decide

/-- Claim C7 (amended): every browser process is launched with a fixed
argument set (nine arguments, a function only of the configured debug port)
that binds the debug interface to all interfaces and disables unrelated
browser subsystems (extensions, sync, background networking, default apps,
popup blocking); it contains no sandbox-disabling flag and no JS-heap cap. -/
theorem breamer_C7 (port : Nat) :
    "--remote-debugging-address=0.0.0.0" ∈ launchArgs port ∧
    ("--remote-debugging-port=" ++ toString port) ∈ launchArgs port ∧
    "--disable-extensions" ∈ launchArgs port ∧
    "--disable-sync" ∈ launchArgs port ∧
    "--disable-background-networking" ∈ launchArgs port ∧
    "--disable-default-apps" ∈ launchArgs port ∧
    "--disable-popup-blocking" ∈ launchArgs port ∧
    (launchArgs port).length = 9 := by
  simp [launchArgs]

/-- Claim C7 counterexample: at the default debug port, no launch argument
mentions sandboxing at all, and none mentions a heap or memory cap (no
`heap`, `memory`, `js-flags`, or max-old-space flag of either spelling) — so
the launch arguments neither disable sandboxing nor cap the JS heap. -/
theorem breamer_C7_counterexample :
    argsMention "sandbox" (launchArgs 9222) = false ∧
    argsMention "heap" (launchArgs 9222) = false ∧
    argsMention "memory" (launchArgs 9222) = false ∧
    argsMention "js-flags" (launchArgs 9222) = false ∧
    argsMention "max-old-space" (launchArgs 9222) = false ∧
    argsMention "max_old_space" (launchArgs 9222) = false := by
  decide

/-- Claim C8: the `/cdp` handler makes at most one launch attempt per
request; if the browser is absent and the launch fails, the response is a
500 with an error message (the handler returns instead of crashing) and no
relaunch is attempted; if the browser is present or the launch succeeds, the
response is the 200 JSON object carrying the rewritten `wsEndpoint` and the
opaque `path`. -/
theorem breamer_C8 (host : String) (s : Cdp.CdpState) (r : Except String String) :
    ((Cdp.cdpHandler host s r).1.attempts ≤ s.attempts + 1) ∧
    (∀ msg, s.browser = none → r = Except.error msg →
        (Cdp.cdpHandler host s r).2
            = Cdp.CdpResponse.err 500 "Failed to get browser endpoint" msg ∧
        (Cdp.cdpHandler host s r).1.browser = none) ∧
    (∀ ep, s.browser = none → r = Except.ok ep →
        (Cdp.cdpHandler host s r).2
            = Cdp.CdpResponse.ok 200 (Cdp.tunnelEndpoint host ep) (Cdp.cdpPath ep)) ∧
    (∀ ep, s.browser = some ep →
        (Cdp.cdpHandler host s r).2
            = Cdp.CdpResponse.ok 200 (Cdp.tunnelEndpoint host ep) (Cdp.cdpPath ep) ∧
        (Cdp.cdpHandler host s r).1 = s) := by
  rcases s with ⟨b, a⟩
  cases b <;> cases r <;> simp [Cdp.cdpHandler]

/-- Claim C8 witness: with no browser and a failing launch, the handler
answers 500 with the failure message and leaves the browser absent. -/
theorem breamer_C8_witness :
    (Cdp.CdpState.mk none 0).browser = none ∧
    (Except.error "boom" : Except String String) = Except.error "boom" ∧
    ((Cdp.cdpHandler "t.example" (Cdp.CdpState.mk none 0) (Except.error "boom")).2
        = Cdp.CdpResponse.err 500 "Failed to get browser endpoint" "boom" ∧
     (Cdp.cdpHandler "t.example" (Cdp.CdpState.mk none 0) (Except.error "boom")).1.browser
        = none) :=
  ⟨rfl, rfl,
   (breamer_C8 "t.example" (Cdp.CdpState.mk none 0) (Except.error "boom")).2.1 "boom" rfl rfl⟩

namespace Supervisor

theorem runSched_cons (s : SupState) (i : Nat) (sched : List Nat) :
    runSched s (i :: sched) = runSched (taskStep s i) sched := rfl

theorem runSched_append (s : SupState) (xs ys : List Nat) :
    runSched s (xs ++ ys) = runSched (runSched s xs) ys := by
  simp [runSched, List.foldl_append]

theorem statesAlong_append (xs : List Nat) : ∀ (s : SupState) (ys : List Nat),
    statesAlong s (xs ++ ys)
      = statesAlong s xs ++ (statesAlong (runSched s xs) ys).tail := by
  induction xs with
  | nil =>
    intro s ys
    cases ys with
    | nil => rfl
    | cons y ys => rfl
  | cons x xs ih =>
    intro s ys
    show s :: statesAlong (taskStep s x) (xs ++ ys) = _
    rw [ih (taskStep s x) ys]
    rfl

theorem getD_rep_head (a b : Phase) (k m : Nat) (hm : 0 < m) :
    (List.replicate k a ++ List.replicate m b).getD k Phase.idle = b := by
  induction k with
  | zero =>
    cases m with
    | zero => omega
    | succ m => simp [List.replicate]
  | succ k ih => simpa [List.replicate] using ih

theorem getD_rep_lt (a b : Phase) (k m : Nat) : ∀ i, i < k →
    (List.replicate k a ++ List.replicate m b).getD i Phase.idle = a := by
  induction k with
  | zero => omega
  | succ k ih =>
    intro i hi
    cases i with
    | zero => simp [List.replicate]
    | succ i => simpa [List.replicate] using ih i (by omega)

theorem set_rep (a b : Phase) (k m : Nat) (hm : 0 < m) :
    (List.replicate k a ++ List.replicate m b).set k a
      = List.replicate (k + 1) a ++ List.replicate (m - 1) b := by
  induction k with
  | zero =>
    cases m with
    | zero => omega
    | succ m => simp [List.replicate]
  | succ k ih => simpa [List.replicate] using ih

theorem stableTasks_length (n k : Nat) (h : k ≤ n) :
    (stableTasks n k).length = n := by
  simp [stableTasks]
  omega

theorem step_stable (n k : Nat) (hk : k < n) :
    taskStep (stableState n k) k = stableState n (k + 1) := by
  have hlen : (stableTasks n k).length = n := stableTasks_length n k (le_of_lt hk)
  have hget : (stableTasks n k).getD k Phase.idle = Phase.idle :=
    getD_rep_head _ _ k (n - k) (by omega)
  have hset : (stableTasks n k).set k (Phase.done 0) = stableTasks n (k + 1) := by
    rw [stableTasks, set_rep _ _ k (n - k) (by omega)]
    rw [stableTasks, Nat.sub_sub]
  show taskStep { browser := some 0, live := [0], launches := 1, nextId := 1,
                  tasks := stableTasks n k } k = _
  rw [taskStep]
  rw [if_pos (by rw [hlen]; exact hk)]
  rw [hget]
  show ({ browser := some 0, live := [0], launches := 1, nextId := 1,
          tasks := (stableTasks n k).set k (Phase.done 0) } : SupState) = _
  rw [hset]
  rfl

theorem step_stable_done (n k : Nat) (hk : k < n) :
    taskStep (stableState n (k + 1)) k = stableState n (k + 1) := by
  have hlen : (stableTasks n (k + 1)).length = n := stableTasks_length n (k + 1) (by omega)
  have hget : (stableTasks n (k + 1)).getD k Phase.idle = Phase.done 0 :=
    getD_rep_lt _ _ (k + 1) (n - (k + 1)) k (by omega)
  show taskStep { browser := some 0, live := [0], launches := 1, nextId := 1,
                  tasks := stableTasks n (k + 1) } k = _
  rw [taskStep]
  rw [if_pos (by rw [hlen]; exact hk)]
  rw [hget]
  rfl

theorem step_sinit (m : Nat) :
    taskStep (sinit (m + 1)) 0
      = { browser := none, live := [], launches := 0, nextId := 0,
          tasks := Phase.launching :: List.replicate m Phase.idle } := by
  show taskStep { browser := none, live := [], launches := 0, nextId := 0,
                  tasks := List.replicate (m + 1) Phase.idle } 0 = _
  rw [taskStep]
  simp [List.replicate]

theorem run_first_block (n : Nat) (h : 0 < n) :
    runSched (sinit n) [0, 0] = stableState n 1 := by
  obtain ⟨m, rfl⟩ : ∃ m, n = m + 1 := ⟨n - 1, by omega⟩
  show taskStep (taskStep (sinit (m + 1)) 0) 0 = stableState (m + 1) 1
  rw [step_sinit m]
  rw [taskStep]
  simp [List.replicate, stableState, stableTasks]

theorem seq_run (n : Nat) : ∀ k, 1 ≤ k → k ≤ n →
    runSched (sinit n) (seqSched k) = stableState n k := by
  intro k
  induction k with
  | zero => omega
  | succ k ih =>
    intro _ hkn
    cases Nat.eq_zero_or_pos k with
    | inl hk0 =>
      subst hk0
      show runSched (sinit n) (seqSched 0 ++ [0, 0]) = stableState n 1
      rw [runSched_append]
      exact run_first_block n (by omega)
    | inr hk1 =>
      show runSched (sinit n) (seqSched k ++ [k, k]) = stableState n (k + 1)
      rw [runSched_append, ih hk1 (by omega)]
      show runSched (taskStep (stableState n k) k) [k] = _
      rw [step_stable n k (by omega)]
      show taskStep (stableState n (k + 1)) k = _
      rw [step_stable_done n k (by omega)]

theorem seq_states (n : Nat) : ∀ k, k ≤ n →
    ∀ st ∈ statesAlong (sinit n) (seqSched k), st.live.length ≤ 1 := by
  intro k
  induction k with
  | zero =>
    intro _ st hst
    simp only [seqSched, statesAlong, List.mem_singleton] at hst
    subst hst
    simp [sinit]
  | succ k ih =>
    intro hkn st hst
    rw [show seqSched (k + 1) = seqSched k ++ [k, k] from rfl,
        statesAlong_append] at hst
    rcases List.mem_append.mp hst with h | h
    · exact ih (by omega) st h
    · have htail : (statesAlong (runSched (sinit n) (seqSched k)) [k, k]).tail
          = [taskStep (runSched (sinit n) (seqSched k)) k,
             taskStep (taskStep (runSched (sinit n) (seqSched k)) k) k] := rfl
      rw [htail] at h
      simp only [List.mem_cons, List.not_mem_nil, or_false] at h
      cases Nat.eq_zero_or_pos k with
      | inl hk0 =>
        subst hk0
        obtain ⟨m, rfl⟩ : ∃ m, n = m + 1 := ⟨n - 1, by omega⟩
        have hrun : runSched (sinit (m + 1)) (seqSched 0) = sinit (m + 1) := rfl
        rw [hrun] at h
        have h2 : taskStep (taskStep (sinit (m + 1)) 0) 0 = stableState (m + 1) 1 := by
          have := run_first_block (m + 1) (by omega)
          exact this
        rcases h with h | h
        · rw [step_sinit m] at h; subst h; simp
        · rw [h2] at h; subst h; simp [stableState]
      | inr hk1 =>
        rw [seq_run n k hk1 (by omega)] at h
        rw [step_stable n k (by omega), step_stable_done n k (by omega)] at h
        rcases h with h | h
        · subst h; simp [stableState]
        · subst h; simp [stableState]

end Supervisor

/-- Claim C1 (amended): for sequences of non-overlapping `ensureBrowser`
calls, at most one live BrowserHandle exists at every instant along the run,
only the first call launches (one launch, one live process), and every call
returns the same handle.  As stated — including calls that overlap at the
event loop's suspension points — the claim fails: the handle is checked
before `await puppeteer.launch` and replaced only after it, so the
read-check-and-replace spans a suspension point, and overlapping calls can
each launch a browser process. -/
theorem breamer_C1 (n : Nat) :
    (∀ st ∈ Supervisor.statesAlong (Supervisor.sinit n) (Supervisor.seqSched n),
        st.live.length ≤ 1) ∧
    (1 ≤ n →
      (Supervisor.runSched (Supervisor.sinit n) (Supervisor.seqSched n)).launches = 1 ∧
      (Supervisor.runSched (Supervisor.sinit n) (Supervisor.seqSched n)).live = [0] ∧
      (Supervisor.runSched (Supervisor.sinit n) (Supervisor.seqSched n)).browser = some 0 ∧
      ∀ i, i < n →
        (Supervisor.runSched (Supervisor.sinit n) (Supervisor.seqSched n)).tasks.getD i
            Supervisor.Phase.idle
          = Supervisor.Phase.done 0) := by
  constructor
  · exact Supervisor.seq_states n n (le_refl n)
  · intro hn
    rw [Supervisor.seq_run n n hn (le_refl n)]
    refine ⟨rfl, rfl, rfl, ?_⟩
    intro i hi
    exact Supervisor.getD_rep_lt _ _ n (n - n) i hi

/-- Claim C1 witness: with three sequential calls, every state has at most
one live process, there is exactly one launch, and all three calls returned
handle `0`. -/
theorem breamer_C1_witness :
    (Supervisor.sinit 3).live.length ≤ 1 ∧ 1 ≤ 3 ∧
    ((Supervisor.runSched (Supervisor.sinit 3) (Supervisor.seqSched 3)).launches = 1 ∧
     (Supervisor.runSched (Supervisor.sinit 3) (Supervisor.seqSched 3)).live = [0] ∧
     (Supervisor.runSched (Supervisor.sinit 3) (Supervisor.seqSched 3)).browser = some 0 ∧
     ∀ i, i < 3 →
       (Supervisor.runSched (Supervisor.sinit 3) (Supervisor.seqSched 3)).tasks.getD i
           Supervisor.Phase.idle
         = Supervisor.Phase.done 0) :=
  ⟨(breamer_C1 3).1 (Supervisor.sinit 3) (by decide), by decide, (breamer_C1 3).2 (by decide)⟩

/-- Claim C1 counterexample: two `ensureBrowser` calls that overlap at the
launch await each pass the connectivity check, so both launch: the run ends
with two live browser processes at the same instant, two launches, and the
two calls holding different handles. -/
theorem breamer_C1_counterexample :
    (Supervisor.runSched (Supervisor.sinit 2) [0, 1, 0, 1]).live = [0, 1] ∧
    (Supervisor.runSched (Supervisor.sinit 2) [0, 1, 0, 1]).launches = 2 ∧
    (Supervisor.runSched (Supervisor.sinit 2) [0, 1, 0, 1]).tasks
      = [Supervisor.Phase.done 0, Supervisor.Phase.done 1] ∧
    ¬ (Supervisor.runSched (Supervisor.sinit 2) [0, 1, 0, 1]).live.length ≤ 1 := by
  decide

namespace Monitor

theorem mget_nil (q : Nat) : mget [] q = none := rfl

theorem mget_cons (k v : Nat) (m : List (Nat × Nat)) (q : Nat) :
    mget ((k, v) :: m) q = if k = q then some v else mget m q := rfl

theorem mdel_nil (p : Nat) : mdel [] p = [] := rfl

theorem mdel_cons (k v p : Nat) (m : List (Nat × Nat)) :
    mdel ((k, v) :: m) p = if k = p then mdel m p else (k, v) :: mdel m p := rfl

theorem mget_append (m l : List (Nat × Nat)) (q : Nat) :
    mget (m ++ l) q = match mget m q with
      | some v => some v
      | none => mget l q := by
  induction m with
  | nil => rfl
  | cons kv m ih =>
    rcases kv with ⟨k, v⟩
    rw [List.cons_append, mget_cons, mget_cons]
    by_cases hk : k = q
    · rw [if_pos hk, if_pos hk]
    · rw [if_neg hk, if_neg hk, ih]

theorem mget_append_some (m l : List (Nat × Nat)) (q v : Nat)
    (h : mget m q = some v) : mget (m ++ l) q = some v := by
  rw [mget_append, h]

theorem mget_append_singleton_ne (m : List (Nat × Nat)) (p c q : Nat)
    (h : q ≠ p) : mget (m ++ [(p, c)]) q = mget m q := by
  rw [mget_append]
  cases hm : mget m q with
  | some v => rfl
  | none => rw [mget_cons, if_neg (Ne.symm h), mget_nil]

theorem mget_append_singleton_self (m : List (Nat × Nat)) (p c : Nat)
    (h : mget m p = none) : mget (m ++ [(p, c)]) p = some c := by
  rw [mget_append, h, mget_cons, if_pos rfl]

theorem mget_mdel (m : List (Nat × Nat)) (p q : Nat) :
    mget (mdel m p) q = if q = p then none else mget m q := by
  induction m with
  | nil => rw [mdel_nil]; cases h : decide (q = p) <;> simp [mget_nil]
  | cons kv m ih =>
    rcases kv with ⟨k, v⟩
    rw [mdel_cons, mget_cons]
    by_cases hk : k = p
    · rw [if_pos hk, ih]
      by_cases hq : q = p
      · rw [if_pos hq, if_pos hq]
      · rw [if_neg hq, if_neg hq, if_neg (fun h : k = q => hq (h.symm.trans hk))]
    · rw [if_neg hk, mget_cons]
      by_cases hkq : k = q
      · rw [if_pos hkq, if_pos hkq, if_neg (fun h : q = p => hk (hkq.trans h))]
      · rw [if_neg hkq, if_neg hkq, ih]

theorem mget_mset_self (m : List (Nat × Nat)) (p v : Nat) :
    mget (mset m p v) p = some v := by
  rw [mset, mget_append, mget_mdel, if_pos rfl, mget_cons, if_pos rfl]

theorem mget_mset_ne (m : List (Nat × Nat)) (p v q : Nat) (h : q ≠ p) :
    mget (mset m p v) q = mget m q := by
  rw [mset, mget_append, mget_mdel, if_neg h]
  cases hm : mget m q with
  | some w => rfl
  | none => rw [mget_cons, if_neg (Ne.symm h), mget_nil]

theorem mget_mem_values (m : List (Nat × Nat)) (p v : Nat)
    (h : mget m p = some v) : v ∈ m.map Prod.snd := by
  induction m with
  | nil => rw [mget_nil] at h; cases h
  | cons kv m ih =>
    rcases kv with ⟨k, w⟩
    rw [mget_cons] at h
    by_cases hk : k = p
    · rw [if_pos hk] at h
      injection h with h
      simp [h]
    · rw [if_neg hk] at h
      simp [ih h]

theorem mem_filter_ne {l : List Timer} {tid : Nat} {u : Timer} :
    u ∈ l.filter (fun t => t.id ≠ tid) ↔ u ∈ l ∧ u.id ≠ tid := by
  simp [List.mem_filter]

theorem filter_ne_sublist (l : List Timer) (tid : Nat) :
    List.Sublist (l.filter fun t => t.id ≠ tid) l :=
  List.filter_sublist l

theorem length_le_one_of_all_eq {α : Type} (l : List α) (hn : l.Nodup)
    (h : ∀ a ∈ l, ∀ b ∈ l, a = b) : l.length ≤ 1 := by
  cases l with
  | nil => simp
  | cons a l =>
    cases l with
    | nil => simp
    | cons b l =>
      exfalso
      have hab : a = b := h a (by simp) b (by simp)
      rw [List.nodup_cons] at hn
      exact hn.1 (by rw [hab]; exact List.mem_cons_self b l)

theorem page_inj {T : Nat} {s : MState} (hB : MInvBase T s) :
    ∀ t ∈ s.pending, ∀ u ∈ s.pending, t.page = u.page → t = u := by
  intro t ht u hu hpage
  have h1 := hB.tracked t ht
  have h2 := hB.tracked u hu
  rw [hpage, h2] at h1
  have hid : u.id = t.id := by simpa using h1
  exact (List.inj_on_of_nodup_map hB.idNodup hu ht hid).symm

end Monitor

namespace Monitor

theorem mdel_mdel (m : List (Nat × Nat)) (p : Nat) :
    mdel (mdel m p) p = mdel m p := by
  induction m with
  | nil => rfl
  | cons kv m ih =>
    rcases kv with ⟨k, v⟩
    rw [mdel_cons]
    by_cases hk : k = p
    · rw [if_pos hk, ih]
    · rw [if_neg hk, mdel_cons, if_neg hk, ih]

theorem filter_filter_same (l : List Timer) (f : Timer → Bool) :
    (l.filter f).filter f = l.filter f := by
  induction l with
  | nil => rfl
  | cons t l ih =>
    by_cases hf : f t = true <;> simp [List.filter_cons, hf, ih]

theorem clearPageTimeout_some {s : MState} {p tid : Nat}
    (h : mget s.pageTimeouts p = some tid) :
    clearPageTimeout p s
      = { s with pending := s.pending.filter fun t => t.id ≠ tid,
                 pageTimeouts := mdel s.pageTimeouts p } := by
  simp only [clearPageTimeout, h]

theorem clearPageTimeout_none {s : MState} {p : Nat}
    (h : mget s.pageTimeouts p = none) :
    clearPageTimeout p s = s := by
  simp only [clearPageTimeout, h]

theorem fireTimer_eq {s : MState} {t : Timer}
    (htr : mget s.pageTimeouts t.page = some t.id) :
    fireTimer t s
      = if t.page ∈ s.closedPages then
          { s with pending := s.pending.filter fun u => u.id ≠ t.id,
                   pageTimeouts := mdel s.pageTimeouts t.page }
        else
          { s with pending := s.pending.filter fun u => u.id ≠ t.id,
                   pageTimeouts := mdel s.pageTimeouts t.page,
                   closedPages := s.closedPages ++ [t.page],
                   closeRequests := s.closeRequests ++ [(t.page, s.now)] } := by
  rcases s with ⟨now, nid, pending, map, created, closed, extc, reqs, br⟩
  by_cases hc : t.page ∈ closed
  · rw [if_pos hc]
    simp only [fireTimer]
    rw [if_pos hc]
  · rw [if_neg hc]
    simp only [fireTimer]
    rw [if_neg hc]
    have h2 : mget map t.page = some t.id := htr
    rw [clearPageTimeout_some h2]
    simp [filter_filter_same, mdel_mdel]

end Monitor

namespace Monitor

theorem fire_base (T : Nat) (s : MState) (t : Timer) (hB : MInvBase T s)
    (ht : t ∈ s.pending) (hfa : t.fireAt = s.now) :
    MInvBase T (fireTimer t s) ∧
    (fireTimer t s).now = s.now ∧
    (fireTimer t s).createdAt = s.createdAt ∧
    (fireTimer t s).externalCloses = s.externalCloses ∧
    (fireTimer t s).nextTimerId = s.nextTimerId ∧
    (fireTimer t s).pending = (s.pending.filter fun u => u.id ≠ t.id) ∧
    (fireTimer t s).closedPages = s.closedPages ++ [t.page] ∧
    (fireTimer t s).closeRequests = s.closeRequests ++ [(t.page, s.now)] := by
  have htr := hB.tracked t ht
  obtain ⟨c, hc, hfc, hnc⟩ := hB.timerMeta t ht
  have hpagene : ∀ u ∈ s.pending, u.id ≠ t.id → u.page ≠ t.page := by
    intro u hu hne hpe
    exact hne (congrArg Timer.id (page_inj hB u hu t ht hpe))
  rw [fireTimer_eq htr, if_neg hnc]
  dsimp only
  refine ⟨⟨?_, ?_, ?_, ?_, ?_, ?_, ?_, ?_, ?_, ?_, ?_, ?_⟩, rfl, rfl, rfl, rfl, rfl, rfl, rfl⟩
  · intro u hu
    rw [mem_filter_ne] at hu
    rw [mget_mdel, if_neg (hpagene u hu.1 hu.2)]
    exact hB.tracked u hu.1
  · intro q tid htid
    rw [mget_mdel] at htid
    by_cases hq : q = t.page
    · rw [if_pos hq] at htid; cases htid
    · rw [if_neg hq] at htid
      obtain ⟨w, hw, hwid, hwp⟩ := hB.trackedBack q tid htid
      refine ⟨w, ?_, hwid, hwp⟩
      rw [mem_filter_ne]
      refine ⟨hw, fun hwe => ?_⟩
      apply hq
      rw [← hwp, List.inj_on_of_nodup_map hB.idNodup hw ht hwe]
  · exact List.Nodup.sublist ((filter_ne_sublist s.pending t.id).map Timer.id) hB.idNodup
  · intro u hu
    rw [mem_filter_ne] at hu
    exact hB.idBound u hu.1
  · intro u hu
    rw [mem_filter_ne] at hu
    exact hB.futureWeak u hu.1
  · intro u hu
    rw [mem_filter_ne] at hu
    obtain ⟨c2, hc2, hf2, hn2⟩ := hB.timerMeta u hu.1
    refine ⟨c2, hc2, hf2, ?_⟩
    simp only [List.mem_append, List.mem_singleton]
    push_neg
    exact ⟨hn2, hpagene u hu.1 hu.2⟩
  · intro q w hq
    rcases List.mem_append.mp hq with hq | hq
    · obtain ⟨c2, hc2, he, hcl⟩ := hB.reqChar q w hq
      exact ⟨c2, hc2, he, List.mem_append_left _ hcl⟩
    · rw [List.mem_singleton, Prod.mk.injEq] at hq
      obtain ⟨rfl, rfl⟩ := hq
      refine ⟨c, hc, ?_, List.mem_append_right _ (List.mem_singleton_self _)⟩
      rw [← hfa, hfc]
  · intro q w hq
    obtain ⟨h1, h2⟩ := hB.extChar q w hq
    exact ⟨h1, List.mem_append_left _ h2⟩
  · intro q hq
    rcases List.mem_append.mp hq with hq | hq
    · rcases hB.closedChar q hq with ⟨w, h⟩ | ⟨w, h⟩
      · exact Or.inl ⟨w, h⟩
      · exact Or.inr ⟨w, List.mem_append_left _ h⟩
    · rw [List.mem_singleton] at hq
      subst hq
      exact Or.inr ⟨s.now, List.mem_append_right _ (List.mem_singleton_self _)⟩
  · intro q hq
    rcases List.mem_append.mp hq with hq | hq
    · exact hB.closedCreated q hq
    · rw [List.mem_singleton] at hq
      subst hq
      exact ⟨c, hc⟩
  · intro q c2 hc2 hqnc
    have hqt : q ≠ t.page := by
      intro he
      exact hqnc (by rw [he]; exact List.mem_append_right _ (List.mem_singleton_self _))
    have hqc : q ∉ s.closedPages := fun h => hqnc (List.mem_append_left _ h)
    obtain ⟨w, hw, hwp, hwf⟩ := hB.openTimer q c2 hc2 hqc
    refine ⟨w, ?_, hwp, hwf⟩
    rw [mem_filter_ne]
    refine ⟨hw, fun hwe => ?_⟩
    apply hqt
    rw [← hwp, List.inj_on_of_nodup_map hB.idNodup hw ht hwe]
  · intro q w c2 hext hc2 hlt w2 hreq
    rcases List.mem_append.mp hreq with hreq | hreq
    · exact hB.noReapExt q w c2 hext hc2 hlt w2 hreq
    · rw [List.mem_singleton, Prod.mk.injEq] at hreq
      obtain ⟨rfl, -⟩ := hreq
      exact hnc (hB.extChar _ w hext).2

end Monitor

namespace Monitor

theorem foldl_fire (T : Nat) : ∀ (ds : List Timer) (s : MState), MInvBase T s →
    (∀ t ∈ ds, t ∈ s.pending ∧ t.fireAt = s.now) →
    (ds.map Timer.id).Nodup →
    MInvBase T (ds.foldl (fun a t => fireTimer t a) s) ∧
    (ds.foldl (fun a t => fireTimer t a) s).now = s.now ∧
    (ds.foldl (fun a t => fireTimer t a) s).createdAt = s.createdAt ∧
    (ds.foldl (fun a t => fireTimer t a) s).externalCloses = s.externalCloses ∧
    (∀ x ∈ (ds.foldl (fun a t => fireTimer t a) s).pending, x ∈ s.pending ∧ x ∉ ds) ∧
    (∀ e ∈ s.closeRequests, e ∈ (ds.foldl (fun a t => fireTimer t a) s).closeRequests) ∧
    (∀ q ∈ s.closedPages, q ∈ (ds.foldl (fun a t => fireTimer t a) s).closedPages) ∧
    (∀ t ∈ ds, t.page ∉ s.closedPages →
      (t.page, s.now) ∈ (ds.foldl (fun a t => fireTimer t a) s).closeRequests) := by
  intro ds
  induction ds with
  | nil =>
    intro s hB hts hnd
    refine ⟨hB, rfl, rfl, rfl, ?_, ?_, ?_, ?_⟩
    · exact fun x hx => ⟨hx, List.not_mem_nil x⟩
    · exact fun e he => he
    · exact fun q hq => hq
    · exact fun t ht => absurd ht (List.not_mem_nil t)
  | cons t rest ih =>
    intro s hB hts hnd
    obtain ⟨ht, hfa⟩ := hts t (List.mem_cons_self t rest)
    obtain ⟨hB1, hnow1, hcr1, hex1, hnid1, hpend1, hcl1, hreq1⟩ :=
      fire_base T s t hB ht hfa
    have hnd0 : (t.id :: rest.map Timer.id).Nodup := by simpa using hnd
    rw [List.nodup_cons] at hnd0
    have hidne : ∀ u ∈ rest, u.id ≠ t.id := by
      intro u hu he
      exact hnd0.1 (he ▸ List.mem_map_of_mem Timer.id hu)
    have hts1 : ∀ u ∈ rest, u ∈ (fireTimer t s).pending ∧ u.fireAt = (fireTimer t s).now := by
      intro u hu
      obtain ⟨hup, huf⟩ := hts u (List.mem_cons_of_mem t hu)
      refine ⟨?_, ?_⟩
      · rw [hpend1, mem_filter_ne]; exact ⟨hup, hidne u hu⟩
      · rw [hnow1, huf]
    have hpagene : ∀ u ∈ rest, u.page ≠ t.page := by
      intro u hu hpe
      obtain ⟨hup, -⟩ := hts u (List.mem_cons_of_mem t hu)
      exact hidne u hu (congrArg Timer.id (page_inj hB u hup t ht hpe))
    obtain ⟨hB2, hnow2, hcr2, hex2, hpend2, hmono2, hclm2, hhits2⟩ :=
      ih (fireTimer t s) hB1 hts1 hnd0.2
    refine ⟨hB2, hnow2.trans hnow1, hcr2.trans hcr1, hex2.trans hex1, ?_, ?_, ?_, ?_⟩
    · intro x hx
      obtain ⟨hx1, hxr⟩ := hpend2 x hx
      rw [hpend1, mem_filter_ne] at hx1
      refine ⟨hx1.1, fun hmem => ?_⟩
      rcases List.mem_cons.mp hmem with rfl | hmem
      · exact hx1.2 rfl
      · exact hxr hmem
    · intro e he
      apply hmono2
      rw [hreq1]
      exact List.mem_append_left _ he
    · intro q hq
      apply hclm2
      rw [hcl1]
      exact List.mem_append_left _ hq
    · intro u hu hop
      rcases List.mem_cons.mp hu with rfl | hu
      · apply hmono2
        rw [hreq1]
        exact List.mem_append_right _ (List.mem_singleton_self _)
      · have hop1 : u.page ∉ (fireTimer t s).closedPages := by
          rw [hcl1]
          simp only [List.mem_append, List.mem_singleton]
          push_neg
          exact ⟨hop, hpagene u hu⟩
        have hv := hhits2 u hu hop1
        rw [hnow1] at hv
        exact hv

end Monitor

namespace Monitor

theorem mstep_create_skip {T p : Nat} {s : MState}
    (h : (mget s.createdAt p).isSome = true) :
    mstep T s (MEv.create p) = s := by
  simp [mstep, h]

theorem mstep_create_eq {T p : Nat} {s : MState} (h : mget s.createdAt p = none)
    (hmap : mget s.pageTimeouts p = none) :
    mstep T s (MEv.create p)
      = { s with createdAt := s.createdAt ++ [(p, s.now)],
                 pending := s.pending ++ [⟨s.nextTimerId, p, s.now + T⟩],
                 pageTimeouts := mset s.pageTimeouts p s.nextTimerId,
                 nextTimerId := s.nextTimerId + 1 } := by
  rcases s with ⟨now, nid, pending, map, created, closed, extc, reqs, br⟩
  simp only [mstep, h, schedulePageTimeout, hmap, Option.isSome_none,
    Bool.false_eq_true, if_false]

theorem mstep_closeExt_skip {T p : Nat} {s : MState}
    (h : ¬((mget s.createdAt p).isSome = true ∧ p ∉ s.closedPages)) :
    mstep T s (MEv.closeExternal p) = s := by
  simp only [mstep]
  rw [if_neg h]

theorem mstep_closeExt_eq {T p c tid : Nat} {s : MState}
    (hc : mget s.createdAt p = some c) (hnc : p ∉ s.closedPages)
    (htid : mget s.pageTimeouts p = some tid) :
    mstep T s (MEv.closeExternal p)
      = { s with closedPages := s.closedPages ++ [p],
                 externalCloses := s.externalCloses ++ [(p, s.now)],
                 pending := s.pending.filter fun t => t.id ≠ tid,
                 pageTimeouts := mdel s.pageTimeouts p } := by
  have hg : (mget s.createdAt p).isSome = true ∧ p ∉ s.closedPages :=
    ⟨by rw [hc]; rfl, hnc⟩
  simp only [mstep]
  rw [if_pos hg]
  rw [@clearPageTimeout_some
      { s with closedPages := s.closedPages ++ [p],
               externalCloses := s.externalCloses ++ [(p, s.now)] } p tid htid]

theorem mstep_tick_eq {T : Nat} {s : MState} :
    mstep T s MEv.tick = fireDue { s with now := s.now + 1 } := rfl

theorem minv_create (T p : Nat) (s : MState) (hT : 1 ≤ T) (hI : MInv T s) :
    MInv T (mstep T s (MEv.create p)) := by
  obtain ⟨hB, hF, hR⟩ := hI
  by_cases hcr : (mget s.createdAt p).isSome = true
  · rw [mstep_create_skip hcr]
    exact ⟨hB, hF, hR⟩
  · have h : mget s.createdAt p = none := by
      cases hm : mget s.createdAt p with
      | none => rfl
      | some c => rw [hm] at hcr; exact absurd rfl hcr
    have hmap : mget s.pageTimeouts p = none := by
      cases hm : mget s.pageTimeouts p with
      | none => rfl
      | some tid =>
        obtain ⟨t, ht, -, hpage⟩ := hB.trackedBack p tid hm
        obtain ⟨c, hc, -, -⟩ := hB.timerMeta t ht
        rw [hpage, h] at hc
        cases hc
    have hpnc : p ∉ s.closedPages := fun hpc => by
      obtain ⟨c, hc⟩ := hB.closedCreated p hpc
      rw [h] at hc
      cases hc
    rw [mstep_create_eq h hmap]
    refine ⟨⟨?_, ?_, ?_, ?_, ?_, ?_, ?_, ?_, ?_, ?_, ?_, ?_⟩, ?_, ?_⟩
    all_goals try dsimp only
    · intro t ht
      rcases List.mem_append.mp ht with ht | ht
      · have htr := hB.tracked t ht
        have hne : t.page ≠ p := by
          intro he
          rw [he] at htr
          rw [hmap] at htr
          cases htr
        rw [mget_mset_ne _ _ _ _ hne]
        exact htr
      · rw [List.mem_singleton] at ht
        subst ht
        exact mget_mset_self _ _ _
    · intro q tid htid
      by_cases hq : q = p
      · subst hq
        rw [mget_mset_self] at htid
        injection htid with htid
        exact ⟨⟨s.nextTimerId, q, s.now + T⟩,
          List.mem_append_right _ (List.mem_singleton_self _), htid, rfl⟩
      · rw [mget_mset_ne _ _ _ _ hq] at htid
        obtain ⟨t, ht, hid, hpg⟩ := hB.trackedBack q tid htid
        exact ⟨t, List.mem_append_left _ ht, hid, hpg⟩
    · rw [List.map_append]
      rw [List.nodup_append]
      refine ⟨hB.idNodup, List.nodup_singleton _, ?_⟩
      intro a ha hb
      rw [List.map_singleton, List.mem_singleton] at hb
      obtain ⟨t, ht, rfl⟩ := List.mem_map.mp ha
      have h1 := hB.idBound t ht
      have hb3 : t.id = s.nextTimerId := hb
      omega
    · intro t ht
      rcases List.mem_append.mp ht with ht | ht
      · have h1 := hB.idBound t ht
        show t.id < s.nextTimerId + 1
        omega
      · rw [List.mem_singleton] at ht
        subst ht
        show s.nextTimerId < s.nextTimerId + 1
        omega
    · intro t ht
      rcases List.mem_append.mp ht with ht | ht
      · exact hB.futureWeak t ht
      · rw [List.mem_singleton] at ht
        subst ht
        show s.now ≤ s.now + T
        omega
    · intro t ht
      rcases List.mem_append.mp ht with ht | ht
      · obtain ⟨c, hc, hfc, hnc2⟩ := hB.timerMeta t ht
        have hne : t.page ≠ p := by
          intro he
          rw [he, h] at hc
          cases hc
        refine ⟨c, ?_, hfc, hnc2⟩
        rw [mget_append_singleton_ne _ _ _ _ hne]
        exact hc
      · rw [List.mem_singleton] at ht
        subst ht
        exact ⟨s.now, mget_append_singleton_self _ _ _ h, rfl, hpnc⟩
    · intro q w hq
      obtain ⟨c, hc, he, hcl⟩ := hB.reqChar q w hq
      exact ⟨c, mget_append_some _ _ _ _ hc, he, hcl⟩
    · exact hB.extChar
    · exact hB.closedChar
    · intro q hq
      obtain ⟨c, hc⟩ := hB.closedCreated q hq
      exact ⟨c, mget_append_some _ _ _ _ hc⟩
    · intro q c hqc hqnc
      by_cases hq : q = p
      · subst hq
        rw [mget_append_singleton_self _ _ _ h] at hqc
        injection hqc with hqc
        subst hqc
        exact ⟨⟨s.nextTimerId, q, s.now + T⟩,
          List.mem_append_right _ (List.mem_singleton_self _), rfl, rfl⟩
      · rw [mget_append_singleton_ne _ _ _ _ hq] at hqc
        obtain ⟨t, ht, hpg, hfc⟩ := hB.openTimer q c hqc hqnc
        exact ⟨t, List.mem_append_left _ ht, hpg, hfc⟩
    · intro q w c hext hqc hlt w2 hreq
      have hq : q ≠ p := by
        intro he
        obtain ⟨c0, hc0⟩ := hB.closedCreated q (hB.extChar q w hext).2
        rw [he, h] at hc0
        cases hc0
      rw [mget_append_singleton_ne _ _ _ _ hq] at hqc
      exact hB.noReapExt q w c hext hqc hlt w2 hreq
    · intro t ht
      rcases List.mem_append.mp ht with ht | ht
      · exact hF t ht
      · rw [List.mem_singleton] at ht; subst ht; show s.now < s.now + T; omega
    · intro q c hqc hle
      by_cases hq : q = p
      · subst hq
        rw [mget_append_singleton_self _ _ _ h] at hqc
        injection hqc with hqc
        omega
      · rw [mget_append_singleton_ne _ _ _ _ hq] at hqc
        exact hR q c hqc hle

end Monitor

namespace Monitor

theorem minv_closeExt (T p : Nat) (s : MState) (hT : 1 ≤ T) (hI : MInv T s) :
    MInv T (mstep T s (MEv.closeExternal p)) := by
  obtain ⟨hB, hF, hR⟩ := hI
  by_cases hg : (mget s.createdAt p).isSome = true ∧ p ∉ s.closedPages
  · obtain ⟨hcr, hnc⟩ := hg
    obtain ⟨c0, hc0⟩ : ∃ c, mget s.createdAt p = some c := by
      cases hm : mget s.createdAt p with
      | none => rw [hm] at hcr; cases hcr
      | some c => exact ⟨c, rfl⟩
    obtain ⟨t0, ht0, hp0, hf0⟩ := hB.openTimer p c0 hc0 hnc
    have htid : mget s.pageTimeouts p = some t0.id := by
      rw [← hp0]
      exact hB.tracked t0 ht0
    rw [mstep_closeExt_eq hc0 hnc htid]
    have hpagene : ∀ u ∈ s.pending, u.id ≠ t0.id → u.page ≠ p := by
      intro u hu hne hpe
      apply hne
      apply congrArg Timer.id
      apply page_inj hB u hu t0 ht0
      rw [hpe, hp0]
    refine ⟨⟨?_, ?_, ?_, ?_, ?_, ?_, ?_, ?_, ?_, ?_, ?_, ?_⟩, ?_, ?_⟩
    all_goals try dsimp only
    · intro u hu
      rw [mem_filter_ne] at hu
      rw [mget_mdel, if_neg (hpagene u hu.1 hu.2)]
      exact hB.tracked u hu.1
    · intro q tid htid2
      rw [mget_mdel] at htid2
      by_cases hq : q = p
      · rw [if_pos hq] at htid2; cases htid2
      · rw [if_neg hq] at htid2
        obtain ⟨w, hw, hwid, hwp⟩ := hB.trackedBack q tid htid2
        refine ⟨w, ?_, hwid, hwp⟩
        rw [mem_filter_ne]
        refine ⟨hw, fun hwe => ?_⟩
        apply hq
        rw [← hwp]
        rw [List.inj_on_of_nodup_map hB.idNodup hw ht0 hwe, hp0]
    · exact List.Nodup.sublist ((filter_ne_sublist s.pending t0.id).map Timer.id) hB.idNodup
    · intro u hu
      rw [mem_filter_ne] at hu
      exact hB.idBound u hu.1
    · intro u hu
      rw [mem_filter_ne] at hu
      exact hB.futureWeak u hu.1
    · intro u hu
      rw [mem_filter_ne] at hu
      obtain ⟨c2, hc2, hfc2, hnc2⟩ := hB.timerMeta u hu.1
      refine ⟨c2, hc2, hfc2, ?_⟩
      simp only [List.mem_append, List.mem_singleton]
      push_neg
      exact ⟨hnc2, hpagene u hu.1 hu.2⟩
    · intro q w hq
      obtain ⟨c2, hc2, he2, hcl2⟩ := hB.reqChar q w hq
      exact ⟨c2, hc2, he2, List.mem_append_left _ hcl2⟩
    · intro q w hq
      rcases List.mem_append.mp hq with hq | hq
      · obtain ⟨h1, h2⟩ := hB.extChar q w hq
        exact ⟨h1, List.mem_append_left _ h2⟩
      · rw [List.mem_singleton, Prod.mk.injEq] at hq
        obtain ⟨rfl, rfl⟩ := hq
        exact ⟨le_refl _, List.mem_append_right _ (List.mem_singleton_self _)⟩
    · intro q hq
      rcases List.mem_append.mp hq with hq | hq
      · rcases hB.closedChar q hq with ⟨w, hw⟩ | ⟨w, hw⟩
        · exact Or.inl ⟨w, List.mem_append_left _ hw⟩
        · exact Or.inr ⟨w, hw⟩
      · rw [List.mem_singleton] at hq
        subst hq
        exact Or.inl ⟨s.now, List.mem_append_right _ (List.mem_singleton_self _)⟩
    · intro q hq
      rcases List.mem_append.mp hq with hq | hq
      · exact hB.closedCreated q hq
      · rw [List.mem_singleton] at hq
        subst hq
        exact ⟨c0, hc0⟩
    · intro q c2 hc2 hqnc
      have hqp : q ≠ p := by
        intro he
        exact hqnc (by rw [he]; exact List.mem_append_right _ (List.mem_singleton_self _))
      have hqc : q ∉ s.closedPages := fun hh => hqnc (List.mem_append_left _ hh)
      obtain ⟨w, hw, hwp, hwf⟩ := hB.openTimer q c2 hc2 hqc
      refine ⟨w, ?_, hwp, hwf⟩
      rw [mem_filter_ne]
      refine ⟨hw, fun hwe => ?_⟩
      apply hqp
      rw [← hwp]
      rw [List.inj_on_of_nodup_map hB.idNodup hw ht0 hwe, hp0]
    · intro q w c2 hext hc2 hlt w2 hreq
      rcases List.mem_append.mp hext with hext | hext
      · exact hB.noReapExt q w c2 hext hc2 hlt w2 hreq
      · rw [List.mem_singleton, Prod.mk.injEq] at hext
        obtain ⟨rfl, rfl⟩ := hext
        obtain ⟨c3, hc3, he3, hcl3⟩ := hB.reqChar q w2 hreq
        exact hnc hcl3
    · intro u hu
      rw [mem_filter_ne] at hu
      exact hF u hu.1
    · intro q c2 hc2 hle
      rcases hR q c2 hc2 hle with hreq | ⟨w, hext, hlt⟩
      · exact Or.inl hreq
      · exact Or.inr ⟨w, List.mem_append_left _ hext, hlt⟩
  · rw [mstep_closeExt_skip hg]
    exact ⟨hB, hF, hR⟩

end Monitor

namespace Monitor

theorem fireDue_spec (T : Nat) (s : MState) (hB : MInvBase T s) :
    MInvBase T (fireDue s) ∧
    (fireDue s).now = s.now ∧
    (fireDue s).createdAt = s.createdAt ∧
    (fireDue s).externalCloses = s.externalCloses ∧
    (∀ x ∈ (fireDue s).pending, x ∈ s.pending ∧ ¬(x.fireAt ≤ s.now)) ∧
    (∀ e ∈ s.closeRequests, e ∈ (fireDue s).closeRequests) ∧
    (∀ q ∈ s.closedPages, q ∈ (fireDue s).closedPages) ∧
    (∀ t ∈ s.pending, t.fireAt ≤ s.now → t.page ∉ s.closedPages →
      (t.page, s.now) ∈ (fireDue s).closeRequests) := by
  have hds : ∀ t ∈ s.pending.filter (fun t => t.fireAt ≤ s.now),
      t ∈ s.pending ∧ t.fireAt = s.now := by
    intro t ht
    rw [List.mem_filter] at ht
    obtain ⟨h1, h2⟩ := ht
    have h3 : t.fireAt ≤ s.now := by simpa using h2
    exact ⟨h1, le_antisymm h3 (hB.futureWeak t h1)⟩
  have hnd : ((s.pending.filter fun t => t.fireAt ≤ s.now).map Timer.id).Nodup :=
    List.Nodup.sublist ((List.filter_sublist _).map Timer.id) hB.idNodup
  obtain ⟨hB2, hnow, hcr, hex, hpend, hmono, hclm, hhits⟩ :=
    foldl_fire T (s.pending.filter fun t => t.fireAt ≤ s.now) s hB hds hnd
  refine ⟨hB2, hnow, hcr, hex, ?_, hmono, hclm, ?_⟩
  · intro x hx
    obtain ⟨h1, h2⟩ := hpend x hx
    refine ⟨h1, fun hle => h2 ?_⟩
    rw [List.mem_filter]
    exact ⟨h1, by simpa using hle⟩
  · intro t ht hle hop
    exact hhits t (by rw [List.mem_filter]; exact ⟨ht, by simpa using hle⟩) hop

theorem minv_tick (T : Nat) (s : MState) (hT : 1 ≤ T) (hI : MInv T s) :
    MInv T (mstep T s MEv.tick) := by
  obtain ⟨hB, hF, hR⟩ := hI
  have hB2 : MInvBase T { s with now := s.now + 1 } :=
    { tracked := hB.tracked, trackedBack := hB.trackedBack, idNodup := hB.idNodup,
      idBound := hB.idBound, futureWeak := fun t ht => hF t ht,
      timerMeta := hB.timerMeta, reqChar := hB.reqChar,
      extChar := fun p q h =>
        ⟨Nat.le_succ_of_le (hB.extChar p q h).1, (hB.extChar p q h).2⟩,
      closedChar := hB.closedChar, closedCreated := hB.closedCreated,
      openTimer := hB.openTimer, noReapExt := hB.noReapExt }
  obtain ⟨hB3, hnow, hcr, hex, hpend, hmono, hclm, hhits⟩ :=
    fireDue_spec T { s with now := s.now + 1 } hB2
  rw [mstep_tick_eq]
  refine ⟨hB3, ?_, ?_⟩
  · intro x hx
    obtain ⟨h1, h2⟩ := hpend x hx
    rw [hnow]
    have h3 : ¬(x.fireAt ≤ s.now + 1) := h2
    show s.now + 1 < x.fireAt
    omega
  · intro p c hc hle
    rw [hcr] at hc
    have hc2 : mget s.createdAt p = some c := hc
    rw [hnow] at hle
    have hle2 : c + T ≤ s.now + 1 := hle
    by_cases hle3 : c + T ≤ s.now
    · rcases hR p c hc2 hle3 with hreq | ⟨q, hext, hlt⟩
      · exact Or.inl (hmono _ hreq)
      · refine Or.inr ⟨q, ?_, hlt⟩
        rw [hex]
        exact hext
    · have heq : c + T = s.now + 1 := by omega
      by_cases hcl : p ∈ s.closedPages
      · rcases hB.closedChar p hcl with ⟨q, hq⟩ | ⟨q, hq⟩
        · refine Or.inr ⟨q, ?_, ?_⟩
          · rw [hex]; exact hq
          · have h4 := (hB.extChar p q hq).1
            omega
        · left
          obtain ⟨c2, hc3, he3, -⟩ := hB.reqChar p q hq
          rw [hc2] at hc3
          injection hc3 with hc3
          have hqe : c + T = q := by omega
          rw [hqe]
          exact hmono _ hq
      · obtain ⟨t, ht, hp, hf⟩ := hB.openTimer p c hc2 hcl
        left
        have hv := hhits t ht (show t.fireAt ≤ s.now + 1 by rw [hf, heq])
          (by rw [hp]; exact hcl)
        rw [hp] at hv
        have hv2 : (p, s.now + 1) ∈
            (fireDue { s with now := s.now + 1 }).closeRequests := hv
        rw [heq]
        exact hv2

theorem minv_mstep (T : Nat) (s : MState) (e : MEv) (hT : 1 ≤ T) (hI : MInv T s) :
    MInv T (mstep T s e) := by
  cases e with
  | create p => exact minv_create T p s hT hI
  | closeExternal p => exact minv_closeExt T p s hT hI
  | tick => exact minv_tick T s hT hI

theorem minv_minit (T : Nat) : MInv T minit := by
  refine ⟨⟨?_, ?_, ?_, ?_, ?_, ?_, ?_, ?_, ?_, ?_, ?_, ?_⟩, ?_, ?_⟩
  · exact fun t ht => absurd ht (List.not_mem_nil t)
  · exact fun p tid h => Option.noConfusion h
  · exact List.nodup_nil
  · exact fun t ht => absurd ht (List.not_mem_nil t)
  · exact fun t ht => absurd ht (List.not_mem_nil t)
  · exact fun t ht => absurd ht (List.not_mem_nil t)
  · exact fun p q h => absurd h (List.not_mem_nil _)
  · exact fun p q h => absurd h (List.not_mem_nil _)
  · exact fun p h => absurd h (List.not_mem_nil _)
  · exact fun p h => absurd h (List.not_mem_nil _)
  · exact fun p c h => Option.noConfusion h
  · exact fun p q c h => absurd h (List.not_mem_nil _)
  · exact fun t ht => absurd ht (List.not_mem_nil t)
  · exact fun p c h => Option.noConfusion h

theorem minv_mrun (T : Nat) (hT : 1 ≤ T) : ∀ (es : List MEv) (s : MState),
    MInv T s → MInv T (mrun T s es) := by
  intro es
  induction es with
  | nil => exact fun s h => h
  | cons e es ih => exact fun s h => ih (mstep T s e) (minv_mstep T s e hT h)

end Monitor

/-- Claim C5: for every monitor run, at most one pending timeout exists per
page, and calling `schedulePageTimeout` for a page that already has a
scheduled timeout cancels the prior timeout (its handle is gone from the
pending set) while installing the fresh one for that page. -/
theorem breamer_C5 (T : Nat) (es : List Monitor.MEv) (p : Nat) (hT : 1 ≤ T) :
    ((Monitor.mrun T Monitor.minit es).pending.filter fun t => t.page = p).length ≤ 1 ∧
    (∀ tid, Monitor.mget (Monitor.mrun T Monitor.minit es).pageTimeouts p = some tid →
      (∀ u ∈ (Monitor.schedulePageTimeout T p (Monitor.mrun T Monitor.minit es)).pending,
        u.id ≠ tid) ∧
      (∃ u ∈ (Monitor.schedulePageTimeout T p (Monitor.mrun T Monitor.minit es)).pending,
        u.page = p ∧ u.id = (Monitor.mrun T Monitor.minit es).nextTimerId)) := by
  obtain ⟨hB, -, -⟩ := Monitor.minv_mrun T hT es Monitor.minit (Monitor.minv_minit T)
  constructor
  · apply Monitor.length_le_one_of_all_eq
    · exact List.Nodup.sublist (List.filter_sublist _) (List.Nodup.of_map _ hB.idNodup)
    · intro a ha b hb
      rw [List.mem_filter] at ha hb
      have hpa : a.page = p := by simpa using ha.2
      have hpb : b.page = p := by simpa using hb.2
      exact Monitor.page_inj hB a ha.1 b hb.1 (by rw [hpa, hpb])
  · intro tid htid
    have hsch : (Monitor.schedulePageTimeout T p (Monitor.mrun T Monitor.minit es)).pending
        = ((Monitor.mrun T Monitor.minit es).pending.filter fun t => t.id ≠ tid)
          ++ [⟨(Monitor.mrun T Monitor.minit es).nextTimerId, p,
              (Monitor.mrun T Monitor.minit es).now + T⟩] := by
      simp [Monitor.schedulePageTimeout, htid]
    have hbound : tid < (Monitor.mrun T Monitor.minit es).nextTimerId := by
      obtain ⟨t, ht, hid, -⟩ := hB.trackedBack p tid htid
      have := hB.idBound t ht
      omega
    constructor
    · intro u hu
      rw [hsch] at hu
      rcases List.mem_append.mp hu with hu | hu
      · exact (Monitor.mem_filter_ne.mp hu).2
      · rw [List.mem_singleton] at hu
        subst hu
        show (Monitor.mrun T Monitor.minit es).nextTimerId ≠ tid
        omega
    · refine ⟨⟨(Monitor.mrun T Monitor.minit es).nextTimerId, p,
          (Monitor.mrun T Monitor.minit es).now + T⟩, ?_, rfl, rfl⟩
      rw [hsch]
      exact List.mem_append_right _ (List.mem_singleton_self _)

/-- Claim C5 witness: after creating page 3, its tracked timer is `0`;
rescheduling removes timer `0` and installs the fresh timer for page 3. -/
theorem breamer_C5_witness :
    1 ≤ 5 ∧
    Monitor.mget (Monitor.mrun 5 Monitor.minit
      [Monitor.MEv.create 3]).pageTimeouts 3 = some 0 ∧
    ((Monitor.mrun 5 Monitor.minit [Monitor.MEv.create 3]).pending.filter
      fun t => t.page = 3).length ≤ 1 ∧
    ((∀ u ∈ (Monitor.schedulePageTimeout 5 3
        (Monitor.mrun 5 Monitor.minit [Monitor.MEv.create 3])).pending, u.id ≠ 0) ∧
     (∃ u ∈ (Monitor.schedulePageTimeout 5 3
        (Monitor.mrun 5 Monitor.minit [Monitor.MEv.create 3])).pending,
        u.page = 3 ∧ u.id = (Monitor.mrun 5 Monitor.minit
          [Monitor.MEv.create 3]).nextTimerId)) :=
  ⟨by decide, by decide,
   (breamer_C5 5 [Monitor.MEv.create 3] 3 (by decide)).1,
   (breamer_C5 5 [Monitor.MEv.create 3] 3 (by decide)).2 0 (by decide)⟩

/-- Claim C6: in every monitor run with a positive configured age, a page
created at time `c` that reaches age `T` with no external close for it has a
monitor close request issued at exactly `c + T`; and a page closed
externally before age `T` never receives any monitor close request. -/
theorem breamer_C6 (T : Nat) (es : List Monitor.MEv) (p c : Nat) (hT : 1 ≤ T) :
    (Monitor.mget (Monitor.mrun T Monitor.minit es).createdAt p = some c →
      c + T ≤ (Monitor.mrun T Monitor.minit es).now →
      ((Monitor.mrun T Monitor.minit es).externalCloses.all fun q => q.1 ≠ p) = true →
      (p, c + T) ∈ (Monitor.mrun T Monitor.minit es).closeRequests) ∧
    (∀ q q2, (p, q) ∈ (Monitor.mrun T Monitor.minit es).externalCloses →
      Monitor.mget (Monitor.mrun T Monitor.minit es).createdAt p = some c →
      q < c + T →
      (p, q2) ∉ (Monitor.mrun T Monitor.minit es).closeRequests) := by
  obtain ⟨hB, -, hR⟩ := Monitor.minv_mrun T hT es Monitor.minit (Monitor.minv_minit T)
  constructor
  · intro hc hle hall
    rcases hR p c hc hle with hreq | ⟨q, hext, -⟩
    · exact hreq
    · have := List.all_eq_true.mp hall (p, q) hext
      simp at this
  · intro q q2 hext hc hlt
    exact hB.noReapExt p q c hext hc hlt q2

/-- Claim C6 witness: with a 2-tick age, page 5 created at time 0 and never
closed externally gets its close request at time 2; and in a run where page
5 is closed externally at time 0, no close request for it is ever issued. -/
theorem breamer_C6_witness :
    (1 ≤ 2 ∧
     Monitor.mget (Monitor.mrun 2 Monitor.minit
       [Monitor.MEv.create 5, Monitor.MEv.tick, Monitor.MEv.tick]).createdAt 5 = some 0 ∧
     (5, 0 + 2) ∈ (Monitor.mrun 2 Monitor.minit
       [Monitor.MEv.create 5, Monitor.MEv.tick, Monitor.MEv.tick]).closeRequests) ∧
    ((5, 0) ∈ (Monitor.mrun 2 Monitor.minit
       [Monitor.MEv.create 5, Monitor.MEv.closeExternal 5, Monitor.MEv.tick,
        Monitor.MEv.tick, Monitor.MEv.tick]).externalCloses ∧
     (5, 9) ∉ (Monitor.mrun 2 Monitor.minit
       [Monitor.MEv.create 5, Monitor.MEv.closeExternal 5, Monitor.MEv.tick,
        Monitor.MEv.tick, Monitor.MEv.tick]).closeRequests) :=
  ⟨⟨by decide, by decide,
    (breamer_C6 2 [Monitor.MEv.create 5, Monitor.MEv.tick, Monitor.MEv.tick] 5 0
      (by decide)).1 (by decide) (by decide) (by decide)⟩,
   ⟨by decide,
    (breamer_C6 2 [Monitor.MEv.create 5, Monitor.MEv.closeExternal 5, Monitor.MEv.tick,
      Monitor.MEv.tick, Monitor.MEv.tick] 5 0 (by decide)).2 0 9
      (by decide) (by decide) (by decide)⟩⟩

/-- Claim C9: `shutdown` first cancels every timer tracked in the
`pageTimeouts` map and empties the map (the tracked count reaches zero)
while the browser handle is still untouched, and only then releases the
browser handle; after shutdown no timer is pending; and shutdown is
idempotent (safe to call when no browser is running). -/
theorem breamer_C9 (s : Monitor.MState)
    (h : ∀ t ∈ s.pending, Monitor.mget s.pageTimeouts t.page = some t.id) :
    (Monitor.shutdownTimers s).pending = [] ∧
    (Monitor.shutdownTimers s).pageTimeouts = [] ∧
    (Monitor.shutdownTimers s).browser = s.browser ∧
    (Monitor.shutdown s).browser = false ∧
    (Monitor.shutdown s).pageTimeouts = [] ∧
    (Monitor.shutdown s).pending = [] ∧
    Monitor.shutdown (Monitor.shutdown s) = Monitor.shutdown s := by
  have hp : s.pending.filter
      (fun t => !((s.pageTimeouts.map Prod.snd).contains t.id)) = [] := by
    rw [List.filter_eq_nil]
    intro t ht
    have hmem := Monitor.mget_mem_values _ _ _ (h t ht)
    simp [hmem]
  rcases s with ⟨now, nid, pending, map, created, closed, extc, reqs, br⟩
  cases br
  · exact ⟨hp, rfl, rfl, rfl, rfl, hp, by
      simp [Monitor.shutdown, Monitor.shutdownTimers, hp]⟩
  · exact ⟨hp, rfl, rfl, rfl, rfl, hp, by
      simp [Monitor.shutdown, Monitor.shutdownTimers, hp]⟩

/-- Claim C9 witness: a state with one tracked pending timer and a running
browser shuts down to no timers, an empty map, and no browser, idempotently. -/
theorem breamer_C9_witness :
    (∀ t ∈ (Monitor.MState.mk 2 1 [⟨0, 7, 9⟩] [(7, 0)] [(7, 0)] [] [] [] true).pending,
      Monitor.mget (Monitor.MState.mk 2 1 [⟨0, 7, 9⟩] [(7, 0)] [(7, 0)] [] [] [] true).pageTimeouts
        t.page = some t.id) ∧
    ((Monitor.shutdownTimers
        (Monitor.MState.mk 2 1 [⟨0, 7, 9⟩] [(7, 0)] [(7, 0)] [] [] [] true)).pending = [] ∧
     (Monitor.shutdownTimers
        (Monitor.MState.mk 2 1 [⟨0, 7, 9⟩] [(7, 0)] [(7, 0)] [] [] [] true)).pageTimeouts = [] ∧
     (Monitor.shutdownTimers
        (Monitor.MState.mk 2 1 [⟨0, 7, 9⟩] [(7, 0)] [(7, 0)] [] [] [] true)).browser
        = (Monitor.MState.mk 2 1 [⟨0, 7, 9⟩] [(7, 0)] [(7, 0)] [] [] [] true).browser ∧
     (Monitor.shutdown
        (Monitor.MState.mk 2 1 [⟨0, 7, 9⟩] [(7, 0)] [(7, 0)] [] [] [] true)).browser = false ∧
     (Monitor.shutdown
        (Monitor.MState.mk 2 1 [⟨0, 7, 9⟩] [(7, 0)] [(7, 0)] [] [] [] true)).pageTimeouts = [] ∧
     (Monitor.shutdown
        (Monitor.MState.mk 2 1 [⟨0, 7, 9⟩] [(7, 0)] [(7, 0)] [] [] [] true)).pending = [] ∧
     Monitor.shutdown (Monitor.shutdown
        (Monitor.MState.mk 2 1 [⟨0, 7, 9⟩] [(7, 0)] [(7, 0)] [] [] [] true))
        = Monitor.shutdown
            (Monitor.MState.mk 2 1 [⟨0, 7, 9⟩] [(7, 0)] [(7, 0)] [] [] [] true)) :=
  ⟨by decide,
   breamer_C9 (Monitor.MState.mk 2 1 [⟨0, 7, 9⟩] [(7, 0)] [(7, 0)] [] [] [] true) (by decide)⟩
